import Mathlib

/-!
Verification of the bezier-patch mesh transform engine
(`libs/image/tests/kis_mesh_transform_worker_test.cpp`).

The C++ code works on `QPointF` (pairs of `qreal`); we embed points as pairs
of rationals and real-valued comparisons against square roots are encoded
square-free (`c > sqrt n` for `n ≥ 0` becomes `0 < c ∧ n < c * c`), so that
every definition stays executable and decidable.
-/

namespace Krita

/-- A 2D point with rational coordinates (embedding of `QPointF`). -/
@[ext] structure Point where
  x : ℚ
  y : ℚ
  deriving DecidableEq, Repr, Inhabited

instance : Add Point := ⟨fun a b => ⟨a.x + b.x, a.y + b.y⟩⟩

instance : Sub Point := ⟨fun a b => ⟨a.x - b.x, a.y - b.y⟩⟩

instance : Neg Point := ⟨fun a => ⟨-a.x, -a.y⟩⟩

instance : HMul ℚ Point Point := ⟨fun c p => ⟨c * p.x, c * p.y⟩⟩

instance : HMul Point ℚ Point := ⟨fun p c => ⟨p.x * c, p.y * c⟩⟩

/-- Embedding of the file-local template `lerp(pt1, pt2, t) = pt1 + (pt2 - pt1) * t`. -/
def lerp (pt1 pt2 : Point) (t : ℚ) : Point := pt1 + (pt2 - pt1) * t

/-- Embedding of `pow2` used by the source (`x * x`). -/
def pow2 (x : ℚ) : ℚ := x * x

/-- Embedding of the solver's `pow3` helper (`x * x * x`). -/
def pow3 (x : ℚ) : ℚ := x * x * x

/-- Embedding of `bezierCurve(p0,p1,p2,p3,t)`: cubic Bezier via Bernstein weights. -/
def bezierCurve (p0 p1 p2 p3 : Point) (t : ℚ) : Point :=
  let t_2 := pow2 t
  let t_3 := t_2 * t
  let t_inv := 1 - t
  let t_inv_2 := pow2 t_inv
  let t_inv_3 := t_inv_2 * t_inv
  t_inv_3 * p0 + (3 * t_inv_2 * t) * p1 + (3 * t_inv * t_2) * p2 + t_3 * p3

/-- Embedding of `bezierCurveDeriv(p0,p1,p2,p3,t)`: derivative of the cubic Bezier. -/
def bezierCurveDeriv (p0 p1 p2 p3 : Point) (t : ℚ) : Point :=
  let t_2 := pow2 t
  let t_inv := 1 - t
  let t_inv_2 := pow2 t_inv
  (3 * t_inv_2) * (p1 - p0) + (6 * t_inv * t) * (p2 - p1) + (3 * t_2) * (p3 - p2)

/-- The five output points of `deCasteljau` (written through pointers in the C++). -/
structure SplitPoints where
  p0 : Point
  p1 : Point
  p2 : Point
  p3 : Point
  p4 : Point
  deriving DecidableEq, Repr

/-- Embedding of `deCasteljau(q0,q1,q2,q3,t,...)`.  The C++ loop
`for j = 1..3: for i = 0..3-j: q[i] = (1-t)*q[i] + t*q[i+1]; p[j-1] = q[0]`
is unrolled: after the loop `p[0],p[1],p[2]` are the successive `q[0]` values
and `q[1],q[2]` hold the first- and second-round values shown below.  The
outputs are `(*p0,*p1,*p2,*p3,*p4) = (p[0],p[1],p[2],q[1],q[2])`. -/
def deCasteljau (q0 q1 q2 q3 : Point) (t : ℚ) : SplitPoints :=
  -- j = 1
  let a0 : Point := (1 - t) * q0 + t * q1
  let a1 : Point := (1 - t) * q1 + t * q2
  let a2 : Point := (1 - t) * q2 + t * q3
  -- j = 2
  let b0 : Point := (1 - t) * a0 + t * a1
  let b1 : Point := (1 - t) * a1 + t * a2
  -- j = 3
  let c0 : Point := (1 - t) * b0 + t * b1
  ⟨a0, b0, c0, b1, a2⟩

/-- Embedding of Qt's `qFuzzyCompare(p1, p2)` for `qreal`:
`qAbs(p1 - p2) * 1000000000000. <= qMin(qAbs(p1), qAbs(p2))` (a decidable
proposition here). -/
def qFuzzyCompare (a b : ℚ) : Prop :=
  |a - b| * 1000000000000 ≤ min |a| |b|

instance (a b : ℚ) : Decidable (qFuzzyCompare a b) := by
  unfold qFuzzyCompare; infer_instance

/-- Modelled from the spec: `KisAlgebra2D::crossProduct` of two 2D vectors
(the spec's "cross product of the chord vector with each endpoint tangent");
the helper itself is not under `src/`. -/
def crossProduct (a b : Point) : ℚ := a.x * b.y - a.y * b.x

/-- Squared Euclidean norm of a point; `KisAlgebra2D::norm` (not under `src/`)
is its square root, which we never take: every comparison against it is
encoded square-free. -/
def normSq (a : Point) : ℚ := a.x * a.x + a.y * a.y

/-- Square-free encoding of `offset > 1.0` where
`offset = crossProduct(diff, d) / (3 * sqrt nsq)` (the source's
`normCoeff * crossProduct(diff, d)` with `normCoeff = 1/3/dist`):
for `nsq ≥ 0`, `c / (3 * sqrt nsq) > 1  ↔  0 < c ∧ 9 * nsq < c * c`. -/
def exceedsUnitOffset (c nsq : ℚ) : Prop :=
  0 < c ∧ 9 * nsq < c * c

instance (c nsq : ℚ) : Decidable (exceedsUnitOffset c nsq) := by
  unfold exceedsUnitOffset; infer_instance

/-- Embedding of `BezierPatch::isLinearSegment(p0, d0, p1, d1)`.  The two
one-sided tests `offset1 > 1.0` / `offset2 > 1.0` from the source are the
square-free `exceedsUnitOffset` tests (the source carries the comment
"TODO: handle negative projection case"). -/
def isLinearSegment (p0 d0 p1 d1 : Point) : Bool :=
  let diff : Point := p1 - p0
  let nsq := normSq diff
  if exceedsUnitOffset (crossProduct diff d0) nsq then false
  else if exceedsUnitOffset (crossProduct diff d1) nsq then false
  else true

/-- Square-free encoding of `t - lastT < minStepSize` where
`minStepSize = 2.0 / kisDistance(p0, p3) = 2 / sqrt chordSq`.  The source
computes the quotient without any guard; for `chordSq = 0` IEEE division
gives `+inf` and the comparison is then true for every `dt`, which is the
first branch below.  For `chordSq > 0`,
`dt < 2 / sqrt chordSq ↔ dt ≤ 0 ∨ dt * dt * chordSq < 4`. -/
def belowMinStep (dt chordSq : ℚ) : Prop :=
  chordSq = 0 ∨ dt ≤ 0 ∨ dt * dt * chordSq < 4

instance (dt chordSq : ℚ) : Decidable (belowMinStep dt chordSq) := by
  unfold belowMinStep; infer_instance

/-- Worker for `linearizeCurve`: the source's `while (!stackedPoints.isEmpty())`
loop, with the stack as a list (head = `top()`), the accepted parameters
accumulated in `steps`, and an explicit fuel so the recursion is total
(every theorem about it quantifies over or instantiates the fuel). -/
def linearizeCurveAux (p0 p1 p2 p3 : Point) :
    ℕ → List (Point × Point × ℚ) → Point → Point → ℚ → List ℚ → List ℚ
  | 0, _, _, _, _, steps => steps
  | _ + 1, [], _, _, _, steps => steps
  | fuel + 1, (p, d, t) :: rest, lastP, lastD, lastT, steps =>
    if belowMinStep (t - lastT) (normSq (p3 - p0)) ∨ isLinearSegment lastP lastD p d = true then
      linearizeCurveAux p0 p1 p2 p3 fuel rest p d t (steps ++ [t])
    else
      let tm := (1 / 2 : ℚ) * (lastT + t)
      linearizeCurveAux p0 p1 p2 p3 fuel
        ((bezierCurve p0 p1 p2 p3 tm, bezierCurveDeriv p0 p1 p2 p3 tm, tm) :: (p, d, t) :: rest)
        lastP lastD lastT steps

/-- Embedding of `BezierPatch::linearizeCurve(p0,p1,p2,p3)`: `steps` starts as
`[0.0]`, the stack starts holding `(p3, 3*(p3-p2), 1.0)`, and the cursor is
`(p0, 3*(p1-p0), 0.0)`. -/
def linearizeCurve (fuel : ℕ) (p0 p1 p2 p3 : Point) : List ℚ :=
  linearizeCurveAux p0 p1 p2 p3 fuel [(p3, (3 : ℚ) * (p3 - p2), 1)]
    p0 ((3 : ℚ) * (p1 - p0)) 0 [0]

/-- Embedding of `std::merge` with the default `operator<` comparator:
an element of the second list is taken only when it is strictly smaller. -/
def mergeLists : List ℚ → List ℚ → List ℚ
  | [], b => b
  | a, [] => a
  | x :: xs, y :: ys =>
    if y < x then y :: mergeLists (x :: xs) ys
    else x :: mergeLists xs (y :: ys)

/-- Worker for `std::unique` with predicate `qFuzzyCompare`: drops every
element fuzzy-equal to the last kept element. -/
def uniqueFuzzyAux (last : ℚ) : List ℚ → List ℚ
  | [] => []
  | y :: ys => if qFuzzyCompare last y then uniqueFuzzyAux last ys
               else y :: uniqueFuzzyAux y ys

/-- Embedding of the `std::unique(..., qFuzzyCompare)` pass of `mergeSteps`. -/
def uniqueFuzzy : List ℚ → List ℚ
  | [] => []
  | x :: xs => x :: uniqueFuzzyAux x xs

/-- Embedding of `BezierPatch::mergeSteps(a, b)`. -/
def mergeSteps (a b : List ℚ) : List ℚ := uniqueFuzzy (mergeLists a b)

/-- Embedding of `QRectF` (origin plus extents, all rational). -/
structure Rect where
  x : ℚ
  y : ℚ
  w : ℚ
  h : ℚ
  deriving DecidableEq, Repr, Inhabited

/-- Modelled from the spec: `KisAlgebra2D::relativeToAbsolute(p, rc)` (not
under `src/`), the "relative-to-absolute mapping of the
(xProportion, yProportion) pair against the patch's source rectangle". -/
def relativeToAbsolute (p : Point) (rc : Rect) : Point :=
  ⟨rc.x + p.x * rc.w, rc.y + p.y * rc.h⟩

/-- Embedding of `BezierPatch`: the 12 control points named by the
`ControlPointType` enum, plus the source rectangle. -/
structure BezierPatch where
  TL : Point
  TL_HC : Point
  TL_VC : Point
  TR : Point
  TR_HC : Point
  TR_VC : Point
  BL : Point
  BL_HC : Point
  BL_VC : Point
  BR : Point
  BR_HC : Point
  BR_VC : Point
  originalRect : Rect
  deriving DecidableEq, Repr, Inhabited

namespace BezierPatch

/-- The loop body shared by `sampleIrregularGrid` and `sampleRegularGrid`:
`transf = Sc + Sd - Sb` at `(xProportion, yProportion)`. -/
def coonsTransf (patch : BezierPatch) (xProportion yProportion : ℚ) : Point :=
  let Sc : Point :=
    lerp (bezierCurve patch.TL patch.TL_HC patch.TR_HC patch.TR xProportion)
         (bezierCurve patch.BL patch.BL_HC patch.BR_HC patch.BR xProportion)
         yProportion
  let Sd : Point :=
    lerp (bezierCurve patch.TL patch.TL_VC patch.BL_VC patch.BL yProportion)
         (bezierCurve patch.TR patch.TR_VC patch.BR_VC patch.BR yProportion)
         xProportion
  let Sb : Point :=
    lerp (lerp patch.TL patch.TR xProportion)
         (lerp patch.BL patch.BR xProportion)
         yProportion
  Sc + Sd - Sb

/-- The 12 control points in enum order, used by `dstBoundingRect`. -/
def pointList (patch : BezierPatch) : List Point :=
  [patch.TL, patch.TL_HC, patch.TL_VC, patch.TR, patch.TR_HC, patch.TR_VC,
   patch.BL, patch.BL_HC, patch.BL_VC, patch.BR, patch.BR_HC, patch.BR_VC]

/-- Modelled from the spec: `dstBoundingRect()` accumulates the "axis-aligned
bounds of all 12 destination control points" (`KisAlgebra2D::accumulateBounds`
is not under `src/`). -/
def dstBoundingRect (patch : BezierPatch) : Rect :=
  let xs := patch.pointList.map Point.x
  let ys := patch.pointList.map Point.y
  let xmin := xs.foldl min patch.TL.x
  let xmax := xs.foldl max patch.TL.x
  let ymin := ys.foldl min patch.TL.y
  let ymax := ys.foldl max patch.TL.y
  ⟨xmin, ymin, xmax - xmin, ymax - ymin⟩

/-- Embedding of `BezierPatch::sampleIrregularGrid`: linearize the four
boundary curves, merge opposite sides, then emit, row by row
(`y` outer, `x` inner exactly as the C++ double loop appends), the source
points and the Coons-blend destination points.  Result:
`((gridWidth, gridHeight), origPoints, transfPoints)`. -/
def sampleIrregularGrid (fuel : ℕ) (patch : BezierPatch) :
    (ℕ × ℕ) × List Point × List Point :=
  let topSteps := linearizeCurve fuel patch.TL patch.TL_HC patch.TR_HC patch.TR
  let bottomSteps := linearizeCurve fuel patch.BL patch.BL_HC patch.BR_HC patch.BR
  let horizontalSteps := mergeSteps topSteps bottomSteps
  let leftSteps := linearizeCurve fuel patch.TL patch.TL_VC patch.BL_VC patch.BL
  let rightSteps := linearizeCurve fuel patch.TR patch.TR_VC patch.BR_VC patch.BR
  let verticalSteps := mergeSteps leftSteps rightSteps
  ((horizontalSteps.length, verticalSteps.length),
   (verticalSteps.map (fun yP => horizontalSteps.map
      (fun xP => relativeToAbsolute ⟨xP, yP⟩ patch.originalRect))).flatten,
   (verticalSteps.map (fun yP => horizontalSteps.map
      (fun xP => patch.coonsTransf xP yP))).flatten)

/-- Embedding of `BezierPatch::sampleRegularGrid`: grid dimensions are
`qCeil(bounds.width() / dstStep.x())` (resp. height), proportions are
`x / (gridWidth - 1)` and `y / (gridHeight - 1)`.  Result:
`((gridWidth, gridHeight), origPoints, transfPoints)`. -/
def sampleRegularGrid (patch : BezierPatch) (dstStep : Point) :
    (ℤ × ℤ) × List Point × List Point :=
  let bounds := patch.dstBoundingRect
  let gw : ℤ := ⌈bounds.w / dstStep.x⌉
  let gh : ℤ := ⌈bounds.h / dstStep.y⌉
  ((gw, gh),
   ((List.range gh.toNat).map (fun y => (List.range gw.toNat).map
      (fun x => relativeToAbsolute ⟨(x : ℚ) / ((gw : ℚ) - 1), (y : ℚ) / ((gh : ℚ) - 1)⟩
        patch.originalRect))).flatten,
   ((List.range gh.toNat).map (fun y => (List.range gw.toNat).map
      (fun x => patch.coonsTransf ((x : ℚ) / ((gw : ℚ) - 1)) ((y : ℚ) / ((gh : ℚ) - 1)))))
     |>.flatten)

end BezierPatch

/-- Written from the spec's words, for comparison: "bilinear interpolation of
the patch's 4 corner points at that (xProportion, yProportion)" (the same
formula as the source's `Sb`). -/
def bilinearInterp (tl tr bl br : Point) (xp yp : ℚ) : Point :=
  lerp (lerp tl tr xp) (lerp bl br xp) yp

/-- The cubic `t^2 * (3 - 2*t)`, the reparametrization a cubic Bezier curve
with coincident control points (`p0,p0,p1,p1`) applies to the straight
segment from `p0` to `p1`. -/
def smoothstep (t : ℚ) : ℚ := t * t * (3 - 2 * t)

/-- Embedding of `Node`: a mesh vertex with its four directional control
points. -/
structure Node where
  leftControl : Point
  topControl : Point
  node : Point
  rightControl : Point
  bottomControl : Point
  deriving DecidableEq, Repr, Inhabited

/-- Embedding of `Node(const QPointF&)`: all four controls coincide with the
vertex. -/
def Node.ofPoint (p : Point) : Node := ⟨p, p, p, p, p⟩

/-- Embedding of `BezierMesh`: flat row-major node storage, the row/column
parametric sequences, the logical size and the original rectangle. -/
structure BezierMesh where
  nodes : List Node
  rows : List ℚ
  columns : List ℚ
  width : ℕ
  height : ℕ
  originalRect : Rect
  deriving DecidableEq, Repr

namespace BezierMesh

/-- Embedding of the `BezierMesh` constructor: a uniform `width × height`
grid of degenerate nodes over `mapRect`, with evenly spaced parametric
positions `col / (width-1)` and `row / (height-1)`. -/
def mk' (mapRect : Rect) (width height : ℕ) : BezierMesh where
  nodes :=
    ((List.range height).map (fun row : ℕ =>
      (List.range width).map (fun col : ℕ =>
        Node.ofPoint ⟨(col : ℚ) / ((width : ℚ) - 1) * mapRect.w + mapRect.x,
                      (row : ℚ) / ((height : ℚ) - 1) * mapRect.h + mapRect.y⟩))).flatten
  rows := (List.range height).map (fun row : ℕ => (row : ℚ) / ((height : ℚ) - 1))
  columns := (List.range width).map (fun col : ℕ => (col : ℚ) / ((width : ℚ) - 1))
  width := width
  height := height
  originalRect := mapRect

/-- Embedding of `BezierMesh::node(col, row)`: row-major lookup
`m_nodes[row * m_size.width() + col]`. -/
def nodeAt (m : BezierMesh) (col row : ℕ) : Node :=
  m.nodes.getD (row * m.width + col) default

/-- Embedding of `std::upper_bound`: the index of the first element greater
than `t` (equal to the length when there is none).  The source then uses
`prev` of this iterator as the bracketing lower position. -/
def upperBoundIdx (l : List ℚ) (t : ℚ) : ℕ :=
  match l with
  | [] => 0
  | x :: xs => if t < x then 0 else upperBoundIdx xs t + 1

/-- Embedding of `BezierMesh::splitCurveVertically(top, bottom, t, newNode)`.
The C++ mutates `top.bottomControl` and `bottom.topControl` in place and fills
`newNode`; we return the updated `(top, bottom, newNode)` triple.  With the
`deCasteljau` outputs `(p1,p2,p3,q1,q2)` of the source being our
`(.p0,.p1,.p2,.p3,.p4)`:
`top.bottomControl = p1`, `newNode.topControl = p2`, `newNode.node = p3`,
`newNode.bottomControl = q1`, `bottom.topControl = q2`, and the cross-axis
controls of the new node are the lerped control offsets re-anchored at the
split point. -/
def splitCurveVertically (top bottom : Node) (t : ℚ) : Node × Node × Node :=
  let r := deCasteljau top.node top.bottomControl bottom.topControl bottom.node t
  let newNode : Node :=
    { leftControl := r.p2 + lerp (top.leftControl - top.node) (bottom.leftControl - bottom.node) t
      topControl := r.p1
      node := r.p2
      rightControl := r.p2 + lerp (top.rightControl - top.node) (bottom.rightControl - bottom.node) t
      bottomControl := r.p3 }
  ({ top with bottomControl := r.p0 }, { bottom with topControl := r.p4 }, newNode)

/-- Embedding of `BezierMesh::splitCurveHorizontally(left, right, t, newNode)`
(see `splitCurveVertically`): returns the updated `(left, right, newNode)`. -/
def splitCurveHorizontally (left right : Node) (t : ℚ) : Node × Node × Node :=
  let r := deCasteljau left.node left.rightControl right.leftControl right.node t
  let newNode : Node :=
    { leftControl := r.p1
      topControl := r.p2 + lerp (left.topControl - left.node) (right.topControl - right.node) t
      node := r.p2
      rightControl := r.p3
      bottomControl := r.p2 + lerp (left.bottomControl - left.node) (right.bottomControl - right.node) t }
  ({ left with rightControl := r.p0 }, { right with leftControl := r.p4 }, newNode)

/-- Embedding of `BezierMesh::subdivideRow(t)`.  The no-op guards are the
source's `qFuzzyCompare` checks and the `KIS_SAFE_ASSERT_RECOVER_RETURN`.
Otherwise `topRow` is `prev(upper_bound(rows, t))`, every column is split at
the relative parameter, the new node row is inserted at row-major offset
`bottomRow * width` (the rows at `topRow`/`bottomRow` having received their
in-place control updates), the height grows and `t` is inserted into `rows`
at the upper-bound position (`next(it)`). -/
def subdivideRow (t : ℚ) (m : BezierMesh) : BezierMesh :=
  if qFuzzyCompare t 0 ∨ qFuzzyCompare t 1 then m
  else if ¬(0 < t ∧ t < 1) then m
  else
    let ub := upperBoundIdx m.rows t
    let topRow := ub - 1
    let bottomRow := topRow + 1
    let relT := (t - m.rows.getD topRow 0) /
                (m.rows.getD bottomRow 0 - m.rows.getD topRow 0)
    let split := fun col => splitCurveVertically (m.nodeAt col topRow) (m.nodeAt col bottomRow) relT
    let newTops := (List.range m.width).map (fun col => (split col).1)
    let newBottoms := (List.range m.width).map (fun col => (split col).2.1)
    let newRow := (List.range m.width).map (fun col => (split col).2.2)
    { m with
      nodes := m.nodes.take (topRow * m.width) ++ newTops ++ newRow ++ newBottoms ++
               m.nodes.drop (bottomRow * m.width + m.width)
      height := m.height + 1
      rows := m.rows.insertIdx ub t }

/-- Embedding of `BezierMesh::subdivideColumn(t)`.  Mirror image of
`subdivideRow`; the C++ inserts the new column node-by-node, stepping the
iterator by `width + 1`, which amounts to inserting, in every row chunk of
the row-major storage, the new node at index `rightColumn` (with the
`leftColumn`/`rightColumn` nodes replaced by their updated versions). -/
def subdivideColumn (t : ℚ) (m : BezierMesh) : BezierMesh :=
  if qFuzzyCompare t 0 ∨ qFuzzyCompare t 1 then m
  else if ¬(0 < t ∧ t < 1) then m
  else
    let ub := upperBoundIdx m.columns t
    let leftColumn := ub - 1
    let rightColumn := leftColumn + 1
    let relT := (t - m.columns.getD leftColumn 0) /
                (m.columns.getD rightColumn 0 - m.columns.getD leftColumn 0)
    let split := fun row => splitCurveHorizontally (m.nodeAt leftColumn row) (m.nodeAt rightColumn row) relT
    { m with
      nodes :=
        ((List.range m.height).map (fun row =>
          let slice := (m.nodes.drop (row * m.width)).take m.width
          slice.take leftColumn ++
            [(split row).1, (split row).2.2, (split row).2.1] ++
            slice.drop (rightColumn + 1))).flatten
      width := m.width + 1
      columns := m.columns.insertIdx ub t }

/-- Embedding of `BezierMesh::makePatch(col, row)`. -/
def makePatch (m : BezierMesh) (col row : ℕ) : BezierPatch :=
  let tl := m.nodeAt col row
  let tr := m.nodeAt (col + 1) row
  let bl := m.nodeAt col (row + 1)
  let br := m.nodeAt (col + 1) (row + 1)
  { TL := tl.node, TL_HC := tl.rightControl, TL_VC := tl.bottomControl
    TR := tr.node, TR_HC := tr.leftControl, TR_VC := tr.bottomControl
    BL := bl.node, BL_HC := bl.rightControl, BL_VC := bl.topControl
    BR := br.node, BR_HC := br.leftControl, BR_VC := br.topControl
    originalRect :=
      ⟨m.originalRect.x + m.columns.getD col 0 * m.originalRect.w,
       m.originalRect.y + m.rows.getD row 0 * m.originalRect.h,
       (m.columns.getD (col + 1) 0 - m.columns.getD col 0) * m.originalRect.w,
       (m.rows.getD (row + 1) 0 - m.rows.getD row 0) * m.originalRect.h⟩ }

end BezierMesh

/-- Embedding of the solver's `Params2D`: the four boundary curves of a patch
(`p`/`q` horizontal, `r`/`s` vertical) plus the target point. -/
structure Params2D where
  p0 : Point
  p1 : Point
  p2 : Point
  p3 : Point
  q0 : Point
  q1 : Point
  q2 : Point
  q3 : Point
  r0 : Point
  r1 : Point
  r2 : Point
  r3 : Point
  s0 : Point
  s1 : Point
  s2 : Point
  s3 : Point
  dstPoint : Point
  deriving DecidableEq, Repr

/-- Embedding of the parameter setup in `calculateLocalPos`: `p` is the top
horizontal boundary, `q` the bottom one, `r` the left vertical boundary and
`s` the right one. -/
def paramsOfPatch (patch : BezierPatch) (dstPoint : Point) : Params2D where
  p0 := patch.TL
  p1 := patch.TL_HC
  p2 := patch.TR_HC
  p3 := patch.TR
  q0 := patch.BL
  q1 := patch.BL_HC
  q2 := patch.BR_HC
  q3 := patch.BR
  r0 := patch.TL
  r1 := patch.TL_VC
  r2 := patch.BL_VC
  r3 := patch.BL
  s0 := patch.TR
  s1 := patch.TR_VC
  s2 := patch.BR_VC
  s3 := patch.BR
  dstPoint := dstPoint

/-- Embedding of `meshForwardMapping(u, v, p)`: the solver's closed-form
bicubic forward map, transcribed term by term from the source. -/
def meshForwardMapping (u v : ℚ) (p : Params2D) : Point :=
  p.r0 +
  (pow3 u * v) * (p.p0 - (3 : ℚ) * p.p1 + (3 : ℚ) * p.p2 - p.p3 - p.q0 + (3 : ℚ) * p.q1 - (3 : ℚ) * p.q2 + p.q3) +
  pow3 u * (-p.p0 + (3 : ℚ) * p.p1 - (3 : ℚ) * p.p2 + p.p3) +
  (pow2 u * v) * (-(3 : ℚ) * p.p0 + (6 : ℚ) * p.p1 - (3 : ℚ) * p.p2 + (3 : ℚ) * p.q0 - (6 : ℚ) * p.q1 + (3 : ℚ) * p.q2) +
  pow2 u * ((3 : ℚ) * p.p0 - (6 : ℚ) * p.p1 + (3 : ℚ) * p.p2) +
  (u * pow3 v) * (p.r0 - (3 : ℚ) * p.r1 + (3 : ℚ) * p.r2 - p.r3 - p.s0 + (3 : ℚ) * p.s1 - (3 : ℚ) * p.s2 + p.s3) +
  (u * pow2 v) * (-(3 : ℚ) * p.r0 + (6 : ℚ) * p.r1 - (3 : ℚ) * p.r2 + (3 : ℚ) * p.s0 - (6 : ℚ) * p.s1 + (3 : ℚ) * p.s2) +
  (u * v) * ((2 : ℚ) * p.p0 - (3 : ℚ) * p.p1 + p.p3 - (2 : ℚ) * p.q0 + (3 : ℚ) * p.q1 - p.q3 +
             (3 : ℚ) * p.r0 - (3 : ℚ) * p.r1 - (3 : ℚ) * p.s0 + (3 : ℚ) * p.s1) +
  u * (-(2 : ℚ) * p.p0 + (3 : ℚ) * p.p1 - p.p3 - p.r0 + p.s0) +
  pow3 v * (-p.r0 + (3 : ℚ) * p.r1 - (3 : ℚ) * p.r2 + p.r3) +
  pow2 v * ((3 : ℚ) * p.r0 - (6 : ℚ) * p.r1 + (3 : ℚ) * p.r2) +
  v * (-(3 : ℚ) * p.r0 + (3 : ℚ) * p.r1)

/-- Modelled from the spec: one call of the external GSL BFGS minimizer
(`gsl_multimin_fdfminimizer_iterate`) is an abstract `step` on the iterate
vector, returning `none` exactly when the library reports a nonzero status,
and `gsl_multimin_test_gradient(gradient, 1e-4)` is an abstract `gradSmall`
test (the spec: "gradient-based descent (quasi-Newton) ... terminating when
the gradient norm falls below a small fixed tolerance or an iteration budget
(e.g., 10000) is exhausted").  This models the `do { ... } while` loop of
`calculateLocalPos`: `iter++` then iterate; on error break (leaving `result`
stale); otherwise test the gradient, copy the iterate into `result`, and
continue while the status is `GSL_CONTINUE` and `iter < 10000`. -/
def minimLoop (step : Params2D → Point → Option Point) (gradSmall : Point → Bool)
    (params : Params2D) : ℕ → Point → Point → Point
  | fuel, s, result =>
    match step params s with
    | none => result
    | some s' =>
      if gradSmall s' then s'
      else
        match fuel with
        | 0 => s'
        | f + 1 => minimLoop step gradSmall params f s' s'

/-- Embedding of `calculateLocalPos(patch, dstPoint)` around the abstract
minimizer: the starting vector is `(0.5, 0.5)`; the initial `result` is
filled by the source's two consecutive `result.rx() = ...` writes (the second
one overwriting the first, and `result.ry()` never being initialized, so it
keeps `QPointF()`'s default 0); then the loop runs at most 10000 iterations
(one unconditional pass plus `9999` continuations). -/
def calculateLocalPos (patch : BezierPatch) (dstPoint : Point)
    (step : Params2D → Point → Option Point) (gradSmall : Point → Bool) : Point :=
  let params := paramsOfPatch patch dstPoint
  let start : Point := ⟨1 / 2, 1 / 2⟩
  let result0 : Point := ⟨start.y, 0⟩
  minimLoop step gradSmall params 9999 start result0

/-- A subdivision call: `subdivideRow t` or `subdivideColumn t`. -/
inductive MeshOp where
  | row (t : ℚ)
  | col (t : ℚ)
  deriving DecidableEq, Repr

/-- Apply a sequence of subdivision calls to a mesh, first element first. -/
def applyOps (ops : List MeshOp) (m : BezierMesh) : BezierMesh :=
  ops.foldl (fun acc op =>
    match op with
    | .row t => acc.subdivideRow t
    | .col t => acc.subdivideColumn t) m

/-- A patch whose eight edge control points coincide with its corners — the
shape of every patch `makePatch` produces from a freshly constructed mesh —
and whose corners form a parallelogram `A`, `B`, `C`, `B + C - A`
(for a fresh mesh the corners are even the corners of an axis-aligned
rectangle). -/
def cornerPatch (A B C : Point) (rc : Rect) : BezierPatch :=
  ⟨A, A, A, B, B, B, C, C, C, B + C - A, B + C - A, B + C - A, rc⟩

/-- The patch made from the freshly constructed `2 × 2` mesh over the
rectangle `(0, 0, 100, 100)` — the concrete instance of claim C2. -/
def freshPatch100 : BezierPatch :=
  (BezierMesh.mk' ⟨0, 0, 100, 100⟩ 2 2).makePatch 0 0

/-! ## The mesh invariant (claim C9, amended) -/

/-- The reachable-state invariant of a mesh: the parametric sequences start at
0, end at 1, have the logical dimensions as lengths, are sorted (the original
claim's strict sortedness fails, see the counterexample), and the node
storage has exactly `width * height` entries. -/
def MeshInvariant (m : BezierMesh) : Prop :=
  m.nodes.length = m.width * m.height ∧
  m.rows.length = m.height ∧
  m.columns.length = m.width ∧
  m.rows.head? = some 0 ∧
  m.rows.getLast? = some 1 ∧
  m.columns.head? = some 0 ∧
  m.columns.getLast? = some 1 ∧
  m.rows.Sorted (· ≤ ·) ∧
  m.columns.Sorted (· ≤ ·)

/-- Hypothesis bundle: `t` lies strictly between the adjacent row positions
`i` and `i + 1` of a well-sized mesh, inside `(0, 1)` and not fuzzy-equal to
1.0 (otherwise the source's tolerance guard makes the call a no-op). -/
def RowBracket (m : BezierMesh) (t : ℚ) (i : ℕ) : Prop :=
  m.rows.Sorted (· ≤ ·) ∧ i + 1 < m.rows.length ∧
  m.rows.getD i 0 < t ∧ t < m.rows.getD (i + 1) 0 ∧
  0 < t ∧ t < 1 ∧ ¬ qFuzzyCompare t 1 ∧
  m.rows.length = m.height ∧ m.nodes.length = m.width * m.height

/-- Hypothesis bundle for the column direction, mirror of `RowBracket`. -/
def ColBracket (m : BezierMesh) (t : ℚ) (i : ℕ) : Prop :=
  m.columns.Sorted (· ≤ ·) ∧ i + 1 < m.columns.length ∧
  m.columns.getD i 0 < t ∧ t < m.columns.getD (i + 1) 0 ∧
  0 < t ∧ t < 1 ∧ ¬ qFuzzyCompare t 1 ∧
  m.columns.length = m.width ∧ m.nodes.length = m.width * m.height

/-! ## Lemmas and claim theorems -/

@[simp] theorem add_x (a b : Point) : (a + b).x = a.x + b.x := rfl

@[simp] theorem add_y (a b : Point) : (a + b).y = a.y + b.y := rfl

@[simp] theorem sub_x (a b : Point) : (a - b).x = a.x - b.x := rfl

@[simp] theorem sub_y (a b : Point) : (a - b).y = a.y - b.y := rfl

@[simp] theorem smul_x (c : ℚ) (p : Point) : (c * p).x = c * p.x := rfl

@[simp] theorem smul_y (c : ℚ) (p : Point) : (c * p).y = c * p.y := rfl

@[simp] theorem muls_x (c : ℚ) (p : Point) : (p * c).x = p.x * c := rfl

@[simp] theorem muls_y (c : ℚ) (p : Point) : (p * c).y = p.y * c := rfl

@[simp] theorem neg_x (a : Point) : (-a).x = -a.x := rfl

@[simp] theorem neg_y (a : Point) : (-a).y = -a.y := rfl

theorem deCasteljau_splitpoint (q0 q1 q2 q3 : Point) (t : ℚ) :
    (deCasteljau q0 q1 q2 q3 t).p2 = bezierCurve q0 q1 q2 q3 t := by
  apply Point.ext <;>
    simp [deCasteljau, bezierCurve, pow2] <;> ring

theorem deCasteljau_left_segment (q0 q1 q2 q3 : Point) (t s : ℚ) :
    bezierCurve q0 (deCasteljau q0 q1 q2 q3 t).p0 (deCasteljau q0 q1 q2 q3 t).p1
      (deCasteljau q0 q1 q2 q3 t).p2 s = bezierCurve q0 q1 q2 q3 (t * s) := by
  apply Point.ext <;>
    simp [deCasteljau, bezierCurve, pow2] <;> ring

theorem deCasteljau_right_segment (q0 q1 q2 q3 : Point) (t s : ℚ) :
    bezierCurve (deCasteljau q0 q1 q2 q3 t).p2 (deCasteljau q0 q1 q2 q3 t).p3
      (deCasteljau q0 q1 q2 q3 t).p4 q3 s = bezierCurve q0 q1 q2 q3 (t + (1 - t) * s) := by
  apply Point.ext <;>
    simp [deCasteljau, bezierCurve, pow2] <;> ring

/-- The fuzzy comparison against 0.0 succeeds only at exactly 0: the Qt
formula compares against `min(|t|, 0) = 0`. -/
theorem qFuzzyCompare_zero_iff (t : ℚ) : qFuzzyCompare t 0 ↔ t = 0 := by
  unfold qFuzzyCompare
  rw [sub_zero, abs_zero, min_eq_right (abs_nonneg t)]
  constructor
  · intro h
    have h2 := abs_nonneg t
    have : |t| = 0 := by nlinarith
    exact abs_eq_zero.mp this
  · intro h
    simp [h]

theorem not_qFuzzyCompare_half_zero : ¬ qFuzzyCompare (1 / 2 : ℚ) 0 := by
  rw [qFuzzyCompare_zero_iff]
  norm_num

theorem not_qFuzzyCompare_half_one : ¬ qFuzzyCompare (1 / 2 : ℚ) 1 := by
  unfold qFuzzyCompare
  intro h
  rw [show |(1 : ℚ) / 2 - 1| = 1 / 2 by norm_num,
      show |(1 : ℚ) / 2| = 1 / 2 by norm_num,
      show |(1 : ℚ)| = 1 by norm_num] at h
  norm_num at h

/-! ## Helper lemmas -/

theorem smul_sub_self (c : ℚ) (a : Point) : c * (a - a) = (⟨0, 0⟩ : Point) := by
  apply Point.ext <;> simp

theorem crossProduct_zero_right (d : Point) : crossProduct d ⟨0, 0⟩ = 0 := by
  simp [crossProduct]

theorem isLinearSegment_zero_tangents (a b : Point) :
    isLinearSegment a ((3 : ℚ) * (a - a)) b ((3 : ℚ) * (b - b)) = true := by
  rw [isLinearSegment]
  simp [smul_sub_self, crossProduct_zero_right, exceedsUnitOffset]

theorem linearizeCurveAux_stop (p0 p1 p2 p3 : Point) (fuel : ℕ) (p d : Point) (t : ℚ)
    (s : List ℚ) : linearizeCurveAux p0 p1 p2 p3 (fuel + 1) [] p d t s = s := by
  rfl

/-- A boundary curve whose two control points coincide with its endpoints is
accepted by the very first `isLinearSegment` test (both tangents are zero, so
both cross products vanish), hence `linearizeCurve` emits just `[0, 1]`. -/
theorem linearizeCurve_straight (a b : Point) (fuel : ℕ) :
    linearizeCurve (fuel + 1) a a b b = [0, 1] := by
  rw [linearizeCurve, linearizeCurveAux, isLinearSegment_zero_tangents]
  simp only [or_true, if_true]
  cases fuel <;> rfl

theorem coonsTransf_corner_00 (p : BezierPatch) : p.coonsTransf 0 0 = p.TL := by
  apply Point.ext <;> simp [BezierPatch.coonsTransf, bezierCurve, lerp, pow2] <;> ring

theorem coonsTransf_corner_10 (p : BezierPatch) : p.coonsTransf 1 0 = p.TR := by
  apply Point.ext <;> simp [BezierPatch.coonsTransf, bezierCurve, lerp, pow2] <;> ring

theorem coonsTransf_corner_01 (p : BezierPatch) : p.coonsTransf 0 1 = p.BL := by
  apply Point.ext <;> simp [BezierPatch.coonsTransf, bezierCurve, lerp, pow2] <;> ring

theorem coonsTransf_corner_11 (p : BezierPatch) : p.coonsTransf 1 1 = p.BR := by
  apply Point.ext <;> simp [BezierPatch.coonsTransf, bezierCurve, lerp, pow2] <;> ring

theorem mergeSteps_zero_one : mergeSteps [0, 1] [0, 1] = [0, 1] := by
  norm_num [mergeSteps, mergeLists, uniqueFuzzy, uniqueFuzzyAux, qFuzzyCompare]

/-- The Coons blend of a degenerate-control parallelogram patch is the
bilinear interpolation of its corners taken at the smoothstep-reparametrized
proportions. -/
theorem coons_cornerPatch (A B C : Point) (rc : Rect) (x y : ℚ) :
    (cornerPatch A B C rc).coonsTransf x y =
      bilinearInterp A B C (B + C - A) (smoothstep x) (smoothstep y) := by
  apply Point.ext <;>
    simp [cornerPatch, BezierPatch.coonsTransf, bilinearInterp, smoothstep,
      bezierCurve, lerp, pow2] <;> ring

/-- On the non-degenerate path (no fuzzy hit, `0 < t < 1`), `subdivideRow`
inserts `t` at the upper-bound position of the row sequence, increments the
height, and leaves the column data alone: the structural part of the update,
read off the else branch. -/
theorem subdivideRow_else (m : BezierMesh) (t : ℚ)
    (h0 : ¬ qFuzzyCompare t 0) (h1 : ¬ qFuzzyCompare t 1) (hlo : 0 < t) (hhi : t < 1) :
    (m.subdivideRow t).rows = m.rows.insertIdx (BezierMesh.upperBoundIdx m.rows t) t ∧
    (m.subdivideRow t).height = m.height + 1 ∧
    (m.subdivideRow t).width = m.width ∧
    (m.subdivideRow t).columns = m.columns := by
  rw [BezierMesh.subdivideRow, if_neg (by tauto), if_neg (not_not_intro ⟨hlo, hhi⟩)]
  exact ⟨rfl, rfl, rfl, rfl⟩

/-- Mirror of `subdivideRow_else` for `subdivideColumn`. -/
theorem subdivideColumn_else (m : BezierMesh) (t : ℚ)
    (h0 : ¬ qFuzzyCompare t 0) (h1 : ¬ qFuzzyCompare t 1) (hlo : 0 < t) (hhi : t < 1) :
    (m.subdivideColumn t).columns =
      m.columns.insertIdx (BezierMesh.upperBoundIdx m.columns t) t ∧
    (m.subdivideColumn t).width = m.width + 1 ∧
    (m.subdivideColumn t).height = m.height ∧
    (m.subdivideColumn t).rows = m.rows := by
  rw [BezierMesh.subdivideColumn, if_neg (by tauto), if_neg (not_not_intro ⟨hlo, hhi⟩)]
  exact ⟨rfl, rfl, rfl, rfl⟩

theorem mk100_rows : (BezierMesh.mk' ⟨0, 0, 100, 100⟩ 2 2).rows = [0, 1] := by
  norm_num [BezierMesh.mk', List.range_succ]

theorem mk100_columns : (BezierMesh.mk' ⟨0, 0, 100, 100⟩ 2 2).columns = [0, 1] := by
  norm_num [BezierMesh.mk', List.range_succ]

/-- The upper-bound position never exceeds the sequence length. -/
theorem upperBoundIdx_le_length (l : List ℚ) (t : ℚ) :
    BezierMesh.upperBoundIdx l t ≤ l.length := by
  induction l with
  | nil => exact Nat.le_refl 0
  | cons x xs ih =>
    rw [BezierMesh.upperBoundIdx]
    by_cases h : t < x
    · rw [if_pos h]; exact Nat.zero_le _
    · rw [if_neg h]; exact Nat.succ_le_succ ih

/-! ## Sorted-insertion lemmas for the parametric sequences -/

theorem upperBoundIdx_cons_pos (x : ℚ) (xs : List ℚ) (t : ℚ) (h : ¬ t < x) :
    BezierMesh.upperBoundIdx (x :: xs) t = BezierMesh.upperBoundIdx xs t + 1 := by
  rw [BezierMesh.upperBoundIdx, if_neg h]

theorem upperBoundIdx_lt_length (l : List ℚ) (t y : ℚ) (hy : y ∈ l) (hty : t < y) :
    BezierMesh.upperBoundIdx l t < l.length := by
  induction l with
  | nil => cases hy
  | cons x xs ih =>
    rw [BezierMesh.upperBoundIdx]
    by_cases h : t < x
    · rw [if_pos h]; exact Nat.succ_pos _
    · rw [if_neg h]
      rcases List.mem_cons.mp hy with h1 | h2
      · exact absurd (h1 ▸ hty) h
      · exact Nat.succ_lt_succ (ih h2)

theorem sorted_insertIdx_upperBound (t : ℚ) (l : List ℚ) (hl : l.Sorted (· ≤ ·)) :
    (l.insertIdx (BezierMesh.upperBoundIdx l t) t).Sorted (· ≤ ·) := by
  induction l with
  | nil => exact List.sorted_singleton t
  | cons x xs ih =>
    rw [BezierMesh.upperBoundIdx]
    obtain ⟨hx, hxs⟩ := List.sorted_cons.mp hl
    by_cases h : t < x
    · rw [if_pos h, List.insertIdx_zero, List.sorted_cons]
      refine ⟨?_, hl⟩
      intro b hb
      rcases List.mem_cons.mp hb with h1 | h2
      · exact h1 ▸ le_of_lt h
      · exact le_trans (le_of_lt h) (hx b h2)
    · rw [if_neg h, List.insertIdx_succ_cons, List.sorted_cons]
      refine ⟨?_, ih hxs⟩
      intro b hb
      rcases (List.mem_insertIdx (upperBoundIdx_le_length xs t)).mp hb with h1 | h2
      · exact h1 ▸ le_of_not_lt h
      · exact hx b h2

theorem getLast?_insertIdx (t : ℚ) :
    ∀ (l : List ℚ) (n : ℕ), n < l.length → (l.insertIdx n t).getLast? = l.getLast?
  | [], n, h => absurd h (Nat.not_lt_zero n)
  | x :: xs, 0, _ => by
    rw [List.insertIdx_zero, List.getLast?_cons_cons]
  | x :: xs, n + 1, h => by
    rw [List.insertIdx_succ_cons]
    have hx : n < xs.length := Nat.lt_of_succ_lt_succ h
    cases xs with
    | nil => exact absurd hx (Nat.not_lt_zero n)
    | cons y ys =>
      obtain ⟨z, zs, hz⟩ : ∃ z zs, List.insertIdx n t (y :: ys) = z :: zs := by
        cases n with
        | zero => exact ⟨t, y :: ys, rfl⟩
        | succ m => exact ⟨y, List.insertIdx m t ys, rfl⟩
      rw [hz, List.getLast?_cons_cons, ← hz, getLast?_insertIdx t (y :: ys) n hx,
          List.getLast?_cons_cons]

theorem head?_insertIdx_of_pos (l : List ℚ) (t : ℚ) (n : ℕ) (hn : 1 ≤ n) :
    (l.insertIdx n t).head? = l.head? := by
  cases l with
  | nil => rw [List.insertIdx_of_length_lt _ _ _ (by simpa using hn)]
  | cons x xs =>
    obtain ⟨k, rfl⟩ : ∃ k, n = k + 1 := ⟨n - 1, by omega⟩
    rw [List.insertIdx_succ_cons]
    rfl

/-- Bounds for the interior-insert position in a sequence satisfying the
invariant shape: the new value lands strictly inside. -/
theorem upperBoundIdx_interior (l : List ℚ) (t : ℚ)
    (hhead : l.head? = some 0) (hlast : l.getLast? = some 1)
    (hlo : 0 < t) (hhi : t < 1) :
    1 ≤ BezierMesh.upperBoundIdx l t ∧ BezierMesh.upperBoundIdx l t < l.length := by
  cases l with
  | nil => cases hhead
  | cons x xs =>
    have hx0 : x = 0 := by simpa using hhead
    constructor
    · rw [upperBoundIdx_cons_pos x xs t (by rw [hx0]; exact not_lt_of_gt hlo)]
      exact Nat.succ_le_succ (Nat.zero_le _)
    · exact upperBoundIdx_lt_length (x :: xs) t 1
        (List.mem_of_mem_getLast? (by rw [hlast]; rfl)) hhi

theorem getLast?_range_succ (n : ℕ) : (List.range (n + 1)).getLast? = some n := by
  rw [List.range_succ, List.getLast?_concat]

/-- Length bookkeeping of the node storage under `subdivideRow`: one new row
of `width` nodes is spliced in. -/
theorem subdivideRow_nodes_length (m : BezierMesh) (t : ℚ)
    (h0 : ¬ qFuzzyCompare t 0) (h1 : ¬ qFuzzyCompare t 1) (hlo : 0 < t) (hhi : t < 1)
    (hub1 : 1 ≤ BezierMesh.upperBoundIdx m.rows t)
    (hub2 : BezierMesh.upperBoundIdx m.rows t < m.rows.length)
    (hrl : m.rows.length = m.height)
    (hlen : m.nodes.length = m.width * m.height) :
    (m.subdivideRow t).nodes.length = m.nodes.length + m.width := by
  rw [BezierMesh.subdivideRow, if_neg (by tauto), if_neg (not_not_intro ⟨hlo, hhi⟩)]
  set ub := BezierMesh.upperBoundIdx m.rows t with hubdef
  simp only [List.length_append, List.length_take, List.length_drop, List.length_map,
    List.length_range]
  have e1 : (ub - 1 + 1) * m.width = (ub - 1) * m.width + m.width := Nat.succ_mul _ _
  have e2 : (ub - 1 + 2) * m.width = (ub - 1) * m.width + m.width + m.width := by ring
  have h3 : (ub - 1 + 2) * m.width ≤ m.height * m.width :=
    Nat.mul_le_mul_right _ (by omega)
  rw [e2] at h3
  rw [Nat.mul_comm m.height m.width] at h3
  rw [e1, hlen]
  omega

/-- Sum of the lengths of the flattened per-row lists when every row has the
same length. -/
theorem length_flatten_of_rows (h k : ℕ) (f : ℕ → List Node)
    (hf : ∀ r, r < h → (f r).length = k) :
    (((List.range h).map f).flatten).length = h * k := by
  rw [List.length_flatten, List.map_map]
  have hrep : (List.range h).map (List.length ∘ f) = List.replicate h k := by
    rw [List.eq_replicate_iff]
    refine ⟨by simp, ?_⟩
    intro b hb
    obtain ⟨r, hr, rfl⟩ := List.mem_map.mp hb
    exact hf r (List.mem_range.mp hr)
  rw [hrep, List.sum_replicate, smul_eq_mul]

/-- Length bookkeeping of the node storage under `subdivideColumn`: one new
node per row is spliced in. -/
theorem subdivideColumn_nodes_length (m : BezierMesh) (t : ℚ)
    (h0 : ¬ qFuzzyCompare t 0) (h1 : ¬ qFuzzyCompare t 1) (hlo : 0 < t) (hhi : t < 1)
    (hub1 : 1 ≤ BezierMesh.upperBoundIdx m.columns t)
    (hub2 : BezierMesh.upperBoundIdx m.columns t < m.columns.length)
    (hcl : m.columns.length = m.width)
    (hlen : m.nodes.length = m.width * m.height) :
    (m.subdivideColumn t).nodes.length = m.nodes.length + m.height := by
  rw [BezierMesh.subdivideColumn, if_neg (by tauto), if_neg (not_not_intro ⟨hlo, hhi⟩)]
  set ub := BezierMesh.upperBoundIdx m.columns t with hubdef
  refine Eq.trans (length_flatten_of_rows m.height (m.width + 1) _ ?_) ?_
  · intro r hr
    have h4 : r * m.width + m.width ≤ m.nodes.length := by
      have := Nat.mul_le_mul_right m.width (Nat.succ_le_of_lt hr)
      rw [Nat.succ_mul, Nat.mul_comm m.height m.width] at this
      omega
    have h5 : ub + 1 ≤ m.width := by omega
    simp only [List.length_append, List.length_take, List.length_drop, List.length_cons,
      List.length_nil]
    omega
  · rw [hlen, Nat.mul_add, Nat.mul_one, Nat.mul_comm m.height m.width]

/-- `subdivideRow` preserves the (amended) mesh invariant. -/
theorem meshInvariant_subdivideRow (m : BezierMesh) (t : ℚ)
    (inv : MeshInvariant m) : MeshInvariant (m.subdivideRow t) := by
  by_cases hf : qFuzzyCompare t 0 ∨ qFuzzyCompare t 1
  · rw [BezierMesh.subdivideRow, if_pos hf]; exact inv
  by_cases hr : 0 < t ∧ t < 1
  swap
  · rw [BezierMesh.subdivideRow, if_neg hf, if_pos hr]; exact inv
  obtain ⟨hN, hR, hC, hRh, hRl, hCh, hCl, hRs, hCs⟩ := inv
  obtain ⟨hub1, hub2⟩ := upperBoundIdx_interior m.rows t hRh hRl hr.1 hr.2
  have hguard0 : ¬ qFuzzyCompare t 0 := fun h => hf (Or.inl h)
  have hguard1 : ¬ qFuzzyCompare t 1 := fun h => hf (Or.inr h)
  obtain ⟨hrows, hheight, hwidth, hcols⟩ := subdivideRow_else m t hguard0 hguard1 hr.1 hr.2
  refine ⟨?_, ?_, ?_, ?_, ?_, ?_, ?_, ?_, ?_⟩
  · rw [subdivideRow_nodes_length m t hguard0 hguard1 hr.1 hr.2 hub1 hub2 hR hN,
        hwidth, hheight, hN, Nat.mul_succ]
  · rw [hrows, hheight, List.length_insertIdx _ _ (le_of_lt hub2), hR]
  · rw [hcols, hwidth]; exact hC
  · rw [hrows, head?_insertIdx_of_pos _ _ _ hub1]; exact hRh
  · rw [hrows, getLast?_insertIdx t _ _ hub2]; exact hRl
  · rw [hcols]; exact hCh
  · rw [hcols]; exact hCl
  · rw [hrows]; exact sorted_insertIdx_upperBound t m.rows hRs
  · rw [hcols]; exact hCs

/-- `subdivideColumn` preserves the (amended) mesh invariant. -/
theorem meshInvariant_subdivideColumn (m : BezierMesh) (t : ℚ)
    (inv : MeshInvariant m) : MeshInvariant (m.subdivideColumn t) := by
  by_cases hf : qFuzzyCompare t 0 ∨ qFuzzyCompare t 1
  · rw [BezierMesh.subdivideColumn, if_pos hf]; exact inv
  by_cases hr : 0 < t ∧ t < 1
  swap
  · rw [BezierMesh.subdivideColumn, if_neg hf, if_pos hr]; exact inv
  obtain ⟨hN, hR, hC, hRh, hRl, hCh, hCl, hRs, hCs⟩ := inv
  obtain ⟨hub1, hub2⟩ := upperBoundIdx_interior m.columns t hCh hCl hr.1 hr.2
  have hguard0 : ¬ qFuzzyCompare t 0 := fun h => hf (Or.inl h)
  have hguard1 : ¬ qFuzzyCompare t 1 := fun h => hf (Or.inr h)
  obtain ⟨hcols, hwidth, hheight, hrows⟩ := subdivideColumn_else m t hguard0 hguard1 hr.1 hr.2
  refine ⟨?_, ?_, ?_, ?_, ?_, ?_, ?_, ?_, ?_⟩
  · rw [subdivideColumn_nodes_length m t hguard0 hguard1 hr.1 hr.2 hub1 hub2 hC hN,
        hwidth, hheight, hN, Nat.succ_mul]
  · rw [hrows, hheight]; exact hR
  · rw [hcols, hwidth, List.length_insertIdx _ _ (le_of_lt hub2), hC]
  · rw [hrows]; exact hRh
  · rw [hrows]; exact hRl
  · rw [hcols, head?_insertIdx_of_pos _ _ _ hub1]; exact hCh
  · rw [hcols, getLast?_insertIdx t _ _ hub2]; exact hCl
  · rw [hrows]; exact hRs
  · rw [hcols]; exact sorted_insertIdx_upperBound t m.columns hCs

/-- The constructor establishes the mesh invariant (for logical sizes at
least 2, as the spec requires). -/
theorem meshInvariant_mk (rect : Rect) (w h : ℕ) (hw : 2 ≤ w) (hh : 2 ≤ h) :
    MeshInvariant (BezierMesh.mk' rect w h) := by
  have sortedSeq : ∀ (n : ℕ) (c : ℚ), 0 < c →
      ((List.range n).map (fun i : ℕ => (i : ℚ) / c)).Sorted (· ≤ ·) := by
    intro n c hc
    refine List.Pairwise.map (fun i : ℕ => (i : ℚ) / c) ?_ (List.pairwise_lt_range n)
    intro a b hab
    exact (div_le_div_iff_of_pos_right hc).mpr (by exact_mod_cast le_of_lt hab)
  have headSeq : ∀ (n : ℕ) (c : ℚ), 1 ≤ n →
      ((List.range n).map (fun i : ℕ => (i : ℚ) / c)).head? = some 0 := by
    intro n c hn
    obtain ⟨k, rfl⟩ : ∃ k, n = k + 1 := ⟨n - 1, by omega⟩
    rw [List.range_succ_eq_map, List.map_cons, List.head?_cons]
    norm_num
  have lastSeq : ∀ (n : ℕ), 2 ≤ n →
      ((List.range n).map (fun i : ℕ => (i : ℚ) / ((n : ℚ) - 1))).getLast? = some 1 := by
    intro n hn
    obtain ⟨k, rfl⟩ : ∃ k, n = k + 1 := ⟨n - 1, by omega⟩
    rw [List.getLast?_map, getLast?_range_succ]
    have hk : (1 : ℕ) ≤ k := by omega
    have hknz : ((k : ℚ)) ≠ 0 := by
      have : (1 : ℚ) ≤ (k : ℚ) := by exact_mod_cast hk
      linarith
    simp only [Option.map_some']
    congr 1
    push_cast
    rw [show ((k : ℚ) + 1) - 1 = (k : ℚ) by ring]
    exact div_self hknz
  have hwQ : (0 : ℚ) < (w : ℚ) - 1 := by
    have : (2 : ℚ) ≤ (w : ℚ) := by exact_mod_cast hw
    linarith
  have hhQ : (0 : ℚ) < (h : ℚ) - 1 := by
    have : (2 : ℚ) ≤ (h : ℚ) := by exact_mod_cast hh
    linarith
  refine ⟨?_, ?_, ?_, ?_, ?_, ?_, ?_, ?_, ?_⟩ <;>
    simp only [BezierMesh.mk']
  · exact Eq.trans (length_flatten_of_rows h w _ (fun r hr => by simp)) (Nat.mul_comm h w)
  · simp
  · simp
  · exact headSeq h _ (by omega)
  · exact lastSeq h hh
  · exact headSeq w _ (by omega)
  · exact lastSeq w hw
  · exact sortedSeq h _ hhQ
  · exact sortedSeq w _ hwQ

/-! ## Indexed access lemmas for the spliced node storage -/

theorem getD_take_of_lt {α : Type} (l : List α) (k n : ℕ) (d : α) (h : n < k) :
    (l.take k).getD n d = l.getD n d := by
  rcases lt_or_ge n l.length with hn | hn
  · rw [List.getD_eq_getElem _ _ (by rw [List.length_take]; omega),
        List.getElem_take, List.getD_eq_getElem _ _ hn]
  · rw [List.getD_eq_default _ _ (by rw [List.length_take]; omega),
        List.getD_eq_default _ _ hn]

theorem getD_drop {α : Type} (l : List α) (k n : ℕ) (d : α) :
    (l.drop k).getD n d = l.getD (k + n) d := by
  rcases lt_or_ge (k + n) l.length with hn | hn
  · rw [List.getD_eq_getElem _ _ (by rw [List.length_drop]; omega),
        List.getElem_drop, List.getD_eq_getElem _ _ hn]
  · rw [List.getD_eq_default _ _ (by rw [List.length_drop]; omega),
        List.getD_eq_default _ _ hn]

theorem getD_map_range {α : Type} (w : ℕ) (f : ℕ → α) (c : ℕ) (hc : c < w) (d : α) :
    ((List.range w).map f).getD c d = f c := by
  rw [List.getD_eq_getElem _ _ (by simpa using hc), List.getElem_map, List.getElem_range]

/-- Access into a five-segment append, by offset ranges. -/
theorem getD_append5 {α : Type} (T A B C D : List α) (d : α) (n : ℕ) :
    (T ++ A ++ B ++ C ++ D).getD n d =
      if n < T.length then T.getD n d
      else if n - T.length < A.length then A.getD (n - T.length) d
      else if n - T.length - A.length < B.length then B.getD (n - T.length - A.length) d
      else if n - T.length - A.length - B.length < C.length then
        C.getD (n - T.length - A.length - B.length) d
      else D.getD (n - T.length - A.length - B.length - C.length) d := by
  by_cases h1 : n < T.length
  · rw [if_pos h1,
        List.getD_append _ _ _ _ (by simp only [List.length_append]; omega),
        List.getD_append _ _ _ _ (by simp only [List.length_append]; omega),
        List.getD_append _ _ _ _ (by simp only [List.length_append]; omega),
        List.getD_append _ _ _ _ h1]
  rw [if_neg h1]
  by_cases h2 : n - T.length < A.length
  · rw [if_pos h2,
        List.getD_append _ _ _ _ (by simp only [List.length_append]; omega),
        List.getD_append _ _ _ _ (by simp only [List.length_append]; omega),
        List.getD_append _ _ _ _ (by simp only [List.length_append]; omega),
        List.getD_append_right _ _ _ _ (by omega)]
  rw [if_neg h2]
  by_cases h3 : n - T.length - A.length < B.length
  · rw [if_pos h3,
        List.getD_append _ _ _ _ (by simp only [List.length_append]; omega),
        List.getD_append _ _ _ _ (by simp only [List.length_append]; omega),
        List.getD_append_right _ _ _ _ (by simp only [List.length_append]; omega),
        List.length_append]
    congr 1
    omega
  rw [if_neg h3]
  by_cases h4 : n - T.length - A.length - B.length < C.length
  · rw [if_pos h4,
        List.getD_append _ _ _ _ (by simp only [List.length_append]; omega),
        List.getD_append_right _ _ _ _ (by simp only [List.length_append]; omega),
        List.length_append, List.length_append]
    congr 1
    omega
  · rw [if_neg h4,
        List.getD_append_right _ _ _ _ (by simp only [List.length_append]; omega),
        List.length_append, List.length_append, List.length_append]
    congr 1
    omega

/-- Access into a three-segment append, by offset ranges. -/
theorem getD_append3 {α : Type} (T A D : List α) (d : α) (n : ℕ) :
    (T ++ A ++ D).getD n d =
      if n < T.length then T.getD n d
      else if n - T.length < A.length then A.getD (n - T.length) d
      else D.getD (n - T.length - A.length) d := by
  by_cases h1 : n < T.length
  · rw [if_pos h1,
        List.getD_append _ _ _ _ (by simp only [List.length_append]; omega),
        List.getD_append _ _ _ _ h1]
  rw [if_neg h1]
  by_cases h2 : n - T.length < A.length
  · rw [if_pos h2,
        List.getD_append _ _ _ _ (by simp only [List.length_append]; omega),
        List.getD_append_right _ _ _ _ (by omega)]
  · rw [if_neg h2,
        List.getD_append_right _ _ _ _ (by simp only [List.length_append]; omega),
        List.length_append]
    congr 1
    omega

/-- Row-major access into a flattened list of equal-length rows. -/
theorem getD_flatten_const {α : Type} (L : List (List α)) (k : ℕ)
    (hL : ∀ l ∈ L, l.length = k) :
    ∀ (r c : ℕ), r < L.length → c < k → ∀ (d : α),
      L.flatten.getD (r * k + c) d = (L.getD r []).getD c d := by
  induction L with
  | nil => intro r c hr; cases hr
  | cons l ls ih =>
    intro r c hr hc d
    cases r with
    | zero =>
      simp only [List.flatten_cons, Nat.zero_mul, Nat.zero_add, List.getD_cons_zero]
      rw [List.getD_append _ _ _ _ (by rw [hL l (List.mem_cons_self l ls)]; exact hc)]
    | succ r2 =>
      simp only [List.flatten_cons, List.getD_cons_succ]
      rw [List.getD_append_right _ _ _ _
            (by rw [hL l (List.mem_cons_self l ls), Nat.succ_mul]; omega),
          hL l (List.mem_cons_self l ls)]
      have he : (r2 + 1) * k + c - k = r2 * k + c := by rw [Nat.succ_mul]; omega
      rw [he, ih (fun x hx => hL x (List.mem_cons_of_mem l hx)) r2 c
            (Nat.lt_of_succ_lt_succ hr) hc d]

/-- Position of the interior insert when the bracketing pair is known:
with a sorted sequence and `l[i] < t < l[i+1]`, the upper bound is `i + 1`. -/
theorem upperBoundIdx_eq_of_bracket (l : List ℚ) (t : ℚ) (i : ℕ)
    (hl : l.Sorted (· ≤ ·)) (hi : i + 1 < l.length)
    (hlo : l.getD i 0 < t) (hhi : t < l.getD (i + 1) 0) :
    BezierMesh.upperBoundIdx l t = i + 1 := by
  induction l generalizing i with
  | nil => cases hi
  | cons x xs ih =>
    cases i with
    | zero =>
      rw [List.getD_cons_zero] at hlo
      rw [List.getD_cons_succ] at hhi
      rw [upperBoundIdx_cons_pos x xs t (not_lt_of_gt hlo)]
      cases xs with
      | nil => simp at hi
      | cons y ys =>
        rw [List.getD_cons_zero] at hhi
        rw [BezierMesh.upperBoundIdx, if_pos hhi]
    | succ j =>
      rw [List.getD_cons_succ] at hlo hhi
      have hjlen : j + 1 < xs.length := by
        simpa using Nat.lt_of_succ_lt_succ hi
      have hxj : x ≤ xs.getD j 0 := by
        obtain ⟨hx, -⟩ := List.sorted_cons.mp hl
        rw [List.getD_eq_getElem _ _ (by omega)]
        exact hx _ (List.getElem_mem _)
      rw [upperBoundIdx_cons_pos x xs t (not_lt_of_gt (lt_of_le_of_lt hxj hlo)),
          ih j (List.sorted_cons.mp hl).2 hjlen hlo hhi]

/-- Full characterization of the node storage after `subdivideRow` when `t`
lies strictly between the adjacent row positions `i` and `i + 1`: rows above
`i` are untouched, row `i` holds the updated tops, the new row sits between,
row `i + 1` (now at index `i + 2`) holds the updated bottoms, and all later
rows shift down by one unchanged. -/
theorem subdivideRow_nodeAt (m : BezierMesh) (t : ℚ) (i col : ℕ)
    (hs : m.rows.Sorted (· ≤ ·))
    (hi : i + 1 < m.rows.length)
    (hbl : m.rows.getD i 0 < t)
    (hbh : t < m.rows.getD (i + 1) 0)
    (h0 : 0 < t) (h1 : t < 1)
    (hf1 : ¬ qFuzzyCompare t 1)
    (hrl : m.rows.length = m.height)
    (hN : m.nodes.length = m.width * m.height)
    (hcol : col < m.width) :
    (∀ r, r < i → (m.subdivideRow t).nodeAt col r = m.nodeAt col r) ∧
    (m.subdivideRow t).nodeAt col i =
      (BezierMesh.splitCurveVertically (m.nodeAt col i) (m.nodeAt col (i + 1))
        ((t - m.rows.getD i 0) / (m.rows.getD (i + 1) 0 - m.rows.getD i 0))).1 ∧
    (m.subdivideRow t).nodeAt col (i + 1) =
      (BezierMesh.splitCurveVertically (m.nodeAt col i) (m.nodeAt col (i + 1))
        ((t - m.rows.getD i 0) / (m.rows.getD (i + 1) 0 - m.rows.getD i 0))).2.2 ∧
    (m.subdivideRow t).nodeAt col (i + 2) =
      (BezierMesh.splitCurveVertically (m.nodeAt col i) (m.nodeAt col (i + 1))
        ((t - m.rows.getD i 0) / (m.rows.getD (i + 1) 0 - m.rows.getD i 0))).2.1 ∧
    (∀ r, i + 2 ≤ r → r < m.height → (m.subdivideRow t).nodeAt col (r + 1) = m.nodeAt col r) := by
  have hf0 : ¬ qFuzzyCompare t 0 := fun h => by
    rw [(qFuzzyCompare_zero_iff t).mp h] at h0
    exact lt_irrefl 0 h0
  have hub : BezierMesh.upperBoundIdx m.rows t = i + 1 :=
    upperBoundIdx_eq_of_bracket m.rows t i hs hi hbl hbh
  have hsplit : m.subdivideRow t = { m with
      nodes := m.nodes.take (i * m.width)
        ++ (List.range m.width).map (fun c =>
             (BezierMesh.splitCurveVertically (m.nodeAt c i) (m.nodeAt c (i + 1))
               ((t - m.rows.getD i 0) / (m.rows.getD (i + 1) 0 - m.rows.getD i 0))).1)
        ++ (List.range m.width).map (fun c =>
             (BezierMesh.splitCurveVertically (m.nodeAt c i) (m.nodeAt c (i + 1))
               ((t - m.rows.getD i 0) / (m.rows.getD (i + 1) 0 - m.rows.getD i 0))).2.2)
        ++ (List.range m.width).map (fun c =>
             (BezierMesh.splitCurveVertically (m.nodeAt c i) (m.nodeAt c (i + 1))
               ((t - m.rows.getD i 0) / (m.rows.getD (i + 1) 0 - m.rows.getD i 0))).2.1)
        ++ m.nodes.drop ((i + 1) * m.width + m.width),
      height := m.height + 1,
      rows := m.rows.insertIdx (i + 1) t } := by
    rw [BezierMesh.subdivideRow, if_neg (by tauto), if_neg (not_not_intro ⟨h0, h1⟩), hub]
    simp only [Nat.add_sub_cancel]
  have hih : i + 2 ≤ m.height := by omega
  have hTlen : (m.nodes.take (i * m.width)).length = i * m.width := by
    rw [List.length_take, hN]
    have h2 : i * m.width ≤ m.height * m.width :=
      Nat.mul_le_mul_right m.width (by omega)
    rw [Nat.mul_comm m.height m.width] at h2
    omega
  have hAlen : ((List.range m.width).map (fun c =>
      (BezierMesh.splitCurveVertically (m.nodeAt c i) (m.nodeAt c (i + 1))
        ((t - m.rows.getD i 0) / (m.rows.getD (i + 1) 0 - m.rows.getD i 0))).1)).length
      = m.width := by simp
  have hBlen : ((List.range m.width).map (fun c =>
      (BezierMesh.splitCurveVertically (m.nodeAt c i) (m.nodeAt c (i + 1))
        ((t - m.rows.getD i 0) / (m.rows.getD (i + 1) 0 - m.rows.getD i 0))).2.2)).length
      = m.width := by simp
  have hClen : ((List.range m.width).map (fun c =>
      (BezierMesh.splitCurveVertically (m.nodeAt c i) (m.nodeAt c (i + 1))
        ((t - m.rows.getD i 0) / (m.rows.getD (i + 1) 0 - m.rows.getD i 0))).2.1)).length
      = m.width := by simp
  refine ⟨?_, ?_, ?_, ?_, ?_⟩
  · intro r hr
    rw [hsplit, BezierMesh.nodeAt, BezierMesh.nodeAt]
    simp only
    rw [getD_append5, hTlen]
    have hn : r * m.width + col < i * m.width := by
      have h2 : (r + 1) * m.width ≤ i * m.width :=
        Nat.mul_le_mul_right m.width (by omega)
      rw [Nat.succ_mul] at h2
      omega
    rw [if_pos hn, getD_take_of_lt _ _ _ _ hn]
  · rw [hsplit, BezierMesh.nodeAt, BezierMesh.nodeAt]
    simp only
    rw [getD_append5, hTlen, hAlen]
    rw [if_neg (by omega), if_pos (by omega)]
    have he : i * m.width + col - i * m.width = col := by omega
    rw [he, getD_map_range _ _ _ hcol]
    rfl
  · rw [hsplit, BezierMesh.nodeAt, BezierMesh.nodeAt]
    simp only
    rw [getD_append5, hTlen, hAlen, hBlen]
    have he1 : (i + 1) * m.width + col = i * m.width + (m.width + col) := by ring
    rw [he1]
    rw [if_neg (by omega), if_neg (by omega), if_pos (by omega)]
    have he2 : i * m.width + (m.width + col) - i * m.width - m.width = col := by omega
    rw [he2, getD_map_range _ _ _ hcol]
    rfl
  · rw [hsplit, BezierMesh.nodeAt, BezierMesh.nodeAt]
    simp only
    rw [getD_append5, hTlen, hAlen, hBlen, hClen]
    have he1 : (i + 2) * m.width + col = i * m.width + (m.width + (m.width + col)) := by ring
    rw [he1]
    rw [if_neg (by omega), if_neg (by omega), if_neg (by omega), if_pos (by omega)]
    have he2 : i * m.width + (m.width + (m.width + col)) - i * m.width - m.width - m.width
        = col := by omega
    rw [he2, getD_map_range _ _ _ hcol]
    rfl
  · intro r hr2 hrh
    obtain ⟨s, rfl⟩ : ∃ s, r = i + 2 + s := ⟨r - (i + 2), by omega⟩
    rw [hsplit, BezierMesh.nodeAt, BezierMesh.nodeAt]
    simp only
    rw [getD_append5, hTlen, hAlen, hBlen, hClen]
    have he1 : (i + 2 + s + 1) * m.width + col =
        i * m.width + (m.width + (m.width + (m.width + (s * m.width + col)))) := by ring
    rw [he1]
    rw [if_neg (by omega), if_neg (by omega), if_neg (by omega), if_neg (by omega)]
    have he2 : i * m.width + (m.width + (m.width + (m.width + (s * m.width + col)))) -
        i * m.width - m.width - m.width - m.width = s * m.width + col := by omega
    rw [he2, getD_drop]
    congr 1
    ring

/-- Full characterization of the node storage after `subdivideColumn` when
`t` lies strictly between the adjacent column positions `i` and `i + 1`:
mirror image of `subdivideRow_nodeAt`. -/
theorem subdivideColumn_nodeAt (m : BezierMesh) (t : ℚ) (i row : ℕ)
    (hs : m.columns.Sorted (· ≤ ·))
    (hi : i + 1 < m.columns.length)
    (hbl : m.columns.getD i 0 < t)
    (hbh : t < m.columns.getD (i + 1) 0)
    (h0 : 0 < t) (h1 : t < 1)
    (hf1 : ¬ qFuzzyCompare t 1)
    (hcl : m.columns.length = m.width)
    (hN : m.nodes.length = m.width * m.height)
    (hrow : row < m.height) :
    (∀ c, c < i → (m.subdivideColumn t).nodeAt c row = m.nodeAt c row) ∧
    (m.subdivideColumn t).nodeAt i row =
      (BezierMesh.splitCurveHorizontally (m.nodeAt i row) (m.nodeAt (i + 1) row)
        ((t - m.columns.getD i 0) / (m.columns.getD (i + 1) 0 - m.columns.getD i 0))).1 ∧
    (m.subdivideColumn t).nodeAt (i + 1) row =
      (BezierMesh.splitCurveHorizontally (m.nodeAt i row) (m.nodeAt (i + 1) row)
        ((t - m.columns.getD i 0) / (m.columns.getD (i + 1) 0 - m.columns.getD i 0))).2.2 ∧
    (m.subdivideColumn t).nodeAt (i + 2) row =
      (BezierMesh.splitCurveHorizontally (m.nodeAt i row) (m.nodeAt (i + 1) row)
        ((t - m.columns.getD i 0) / (m.columns.getD (i + 1) 0 - m.columns.getD i 0))).2.1 ∧
    (∀ c, i + 2 ≤ c → c < m.width → (m.subdivideColumn t).nodeAt (c + 1) row = m.nodeAt c row) := by
  have hf0 : ¬ qFuzzyCompare t 0 := fun h => by
    rw [(qFuzzyCompare_zero_iff t).mp h] at h0
    exact lt_irrefl 0 h0
  have hub : BezierMesh.upperBoundIdx m.columns t = i + 1 :=
    upperBoundIdx_eq_of_bracket m.columns t i hs hi hbl hbh
  have hiw : i + 2 ≤ m.width := by omega
  have hsplit : m.subdivideColumn t = { m with
      nodes := ((List.range m.height).map (fun r =>
        let slice := (m.nodes.drop (r * m.width)).take m.width
        slice.take i ++
          [(BezierMesh.splitCurveHorizontally (m.nodeAt i r) (m.nodeAt (i + 1) r)
              ((t - m.columns.getD i 0) / (m.columns.getD (i + 1) 0 - m.columns.getD i 0))).1,
           (BezierMesh.splitCurveHorizontally (m.nodeAt i r) (m.nodeAt (i + 1) r)
              ((t - m.columns.getD i 0) / (m.columns.getD (i + 1) 0 - m.columns.getD i 0))).2.2,
           (BezierMesh.splitCurveHorizontally (m.nodeAt i r) (m.nodeAt (i + 1) r)
              ((t - m.columns.getD i 0) / (m.columns.getD (i + 1) 0 - m.columns.getD i 0))).2.1] ++
          slice.drop (i + 1 + 1))).flatten,
      width := m.width + 1,
      columns := m.columns.insertIdx (i + 1) t } := by
    rw [BezierMesh.subdivideColumn, if_neg (by tauto), if_neg (not_not_intro ⟨h0, h1⟩), hub]
    simp only [Nat.add_sub_cancel]
  have hrowlen : ∀ r, r < m.height →
      ((fun r =>
        let slice := (m.nodes.drop (r * m.width)).take m.width
        slice.take i ++
          [(BezierMesh.splitCurveHorizontally (m.nodeAt i r) (m.nodeAt (i + 1) r)
              ((t - m.columns.getD i 0) / (m.columns.getD (i + 1) 0 - m.columns.getD i 0))).1,
           (BezierMesh.splitCurveHorizontally (m.nodeAt i r) (m.nodeAt (i + 1) r)
              ((t - m.columns.getD i 0) / (m.columns.getD (i + 1) 0 - m.columns.getD i 0))).2.2,
           (BezierMesh.splitCurveHorizontally (m.nodeAt i r) (m.nodeAt (i + 1) r)
              ((t - m.columns.getD i 0) / (m.columns.getD (i + 1) 0 - m.columns.getD i 0))).2.1] ++
          slice.drop (i + 1 + 1)) r).length = m.width + 1 := by
    intro r hr
    have h4 : r * m.width + m.width ≤ m.nodes.length := by
      have := Nat.mul_le_mul_right m.width (Nat.succ_le_of_lt hr)
      rw [Nat.succ_mul, Nat.mul_comm m.height m.width] at this
      omega
    simp only [List.length_append, List.length_take, List.length_drop, List.length_cons,
      List.length_nil]
    omega
  have hslicelen : ((m.nodes.drop (row * m.width)).take m.width).length = m.width := by
    have h4 : row * m.width + m.width ≤ m.nodes.length := by
      have := Nat.mul_le_mul_right m.width (Nat.succ_le_of_lt hrow)
      rw [Nat.succ_mul, Nat.mul_comm m.height m.width] at this
      omega
    rw [List.length_take, List.length_drop]
    omega
  have haccess : ∀ c, c < m.width + 1 →
      (m.subdivideColumn t).nodeAt c row =
        (((m.nodes.drop (row * m.width)).take m.width).take i ++
          [(BezierMesh.splitCurveHorizontally (m.nodeAt i row) (m.nodeAt (i + 1) row)
              ((t - m.columns.getD i 0) / (m.columns.getD (i + 1) 0 - m.columns.getD i 0))).1,
           (BezierMesh.splitCurveHorizontally (m.nodeAt i row) (m.nodeAt (i + 1) row)
              ((t - m.columns.getD i 0) / (m.columns.getD (i + 1) 0 - m.columns.getD i 0))).2.2,
           (BezierMesh.splitCurveHorizontally (m.nodeAt i row) (m.nodeAt (i + 1) row)
              ((t - m.columns.getD i 0) / (m.columns.getD (i + 1) 0 - m.columns.getD i 0))).2.1] ++
          ((m.nodes.drop (row * m.width)).take m.width).drop (i + 1 + 1)).getD c default := by
    intro c hc
    rw [hsplit, BezierMesh.nodeAt]
    simp only
    rw [getD_flatten_const _ (m.width + 1)
          (by
            intro l hl
            obtain ⟨r, hr, rfl⟩ := List.mem_map.mp hl
            exact hrowlen r (List.mem_range.mp hr))
          row c (by simpa using hrow) hc,
        getD_map_range _ _ _ hrow]
  refine ⟨?_, ?_, ?_, ?_, ?_⟩
  · intro c hc
    rw [haccess c (by omega), getD_append3]
    simp only [List.length_take, hslicelen]
    rw [if_pos (by omega), getD_take_of_lt _ _ _ _ hc, getD_take_of_lt _ _ _ _ (by omega),
        getD_drop]
    rfl
  · rw [haccess i (by omega), getD_append3]
    simp only [List.length_take, hslicelen]
    rw [if_neg (by omega), if_pos (by simp; omega)]
    have he : i - min i m.width = 0 := by omega
    rw [he]
    rfl
  · rw [haccess (i + 1) (by omega), getD_append3]
    simp only [List.length_take, hslicelen]
    rw [if_neg (by omega), if_pos (by simp; omega)]
    have he : i + 1 - min i m.width = 1 := by omega
    rw [he]
    rfl
  · rw [haccess (i + 2) (by omega), getD_append3]
    simp only [List.length_take, hslicelen]
    rw [if_neg (by omega), if_pos (by simp; omega)]
    have he : i + 2 - min i m.width = 2 := by omega
    rw [he]
    rfl
  · intro c hc2 hcw
    rw [haccess (c + 1) (by omega), getD_append3]
    simp only [List.length_take, hslicelen, List.length_cons, List.length_nil]
    rw [if_neg (by omega), if_neg (by omega)]
    have he : c + 1 - min i m.width - (0 + 1 + 1 + 1) = c - (i + 2) := by omega
    rw [he, getD_drop, getD_take_of_lt _ _ _ _ (by omega), getD_drop]
    have he2 : row * m.width + (i + 1 + 1 + (c - (i + 2))) = row * m.width + c := by omega
    rw [he2]
    rfl

theorem rowBracket_mk100 : RowBracket (BezierMesh.mk' ⟨0, 0, 100, 100⟩ 2 2) (1 / 2) 0 := by
  refine ⟨?_, ?_, ?_, ?_, by norm_num, by norm_num, not_qFuzzyCompare_half_one, ?_, ?_⟩
  · rw [mk100_rows]
    simp [List.sorted_cons]
  · rw [mk100_rows]; norm_num
  · rw [mk100_rows]; norm_num
  · rw [mk100_rows]; norm_num
  · rw [mk100_rows]; rfl
  · rfl

theorem colBracket_mk100 : ColBracket (BezierMesh.mk' ⟨0, 0, 100, 100⟩ 2 2) (1 / 2) 0 := by
  refine ⟨?_, ?_, ?_, ?_, by norm_num, by norm_num, not_qFuzzyCompare_half_one, ?_, ?_⟩
  · rw [mk100_columns]
    simp [List.sorted_cons]
  · rw [mk100_columns]; norm_num
  · rw [mk100_columns]; norm_num
  · rw [mk100_columns]; norm_num
  · rw [mk100_columns]; rfl
  · rfl

/-- Shared computation: rows and heights of the fresh mesh subdivided once
and twice at `t = 1/2`. -/
theorem repeatedSubdivide_facts :
    (((BezierMesh.mk' ⟨0, 0, 100, 100⟩ 2 2).subdivideRow (1 / 2)).subdivideRow
        (1 / 2)).rows = [0, 1 / 2, 1 / 2, 1] ∧
    ((BezierMesh.mk' ⟨0, 0, 100, 100⟩ 2 2).subdivideRow (1 / 2)).rows = [0, 1 / 2, 1] ∧
    (((BezierMesh.mk' ⟨0, 0, 100, 100⟩ 2 2).subdivideRow (1 / 2)).subdivideRow
        (1 / 2)).height = 4 ∧
    ((BezierMesh.mk' ⟨0, 0, 100, 100⟩ 2 2).subdivideRow (1 / 2)).height = 3 := by
  obtain ⟨hr1, hh1, -, -⟩ := subdivideRow_else (BezierMesh.mk' ⟨0, 0, 100, 100⟩ 2 2)
    (1 / 2) not_qFuzzyCompare_half_zero not_qFuzzyCompare_half_one (by norm_num) (by norm_num)
  rw [mk100_rows] at hr1
  have hr1v : ((BezierMesh.mk' ⟨0, 0, 100, 100⟩ 2 2).subdivideRow (1 / 2)).rows
      = [0, 1 / 2, 1] := by
    rw [hr1]
    norm_num [BezierMesh.upperBoundIdx]
  obtain ⟨hr2, hh2, -, -⟩ := subdivideRow_else
    ((BezierMesh.mk' ⟨0, 0, 100, 100⟩ 2 2).subdivideRow (1 / 2))
    (1 / 2) not_qFuzzyCompare_half_zero not_qFuzzyCompare_half_one (by norm_num) (by norm_num)
  rw [hr1v] at hr2
  refine ⟨?_, hr1v, ?_, ?_⟩
  · rw [hr2]
    norm_num [BezierMesh.upperBoundIdx]
  · rw [hh2, hh1]
    rfl
  · rw [hh1]
    rfl

theorem freshPatch100_eq :
    freshPatch100 = cornerPatch ⟨0, 0⟩ ⟨100, 0⟩ ⟨0, 100⟩ ⟨0, 0, 100, 100⟩ := by
  norm_num [freshPatch100, BezierMesh.mk', BezierMesh.makePatch, BezierMesh.nodeAt,
    Node.ofPoint, cornerPatch, List.range_succ]
  apply Point.ext <;> norm_num

/-! ## Claim theorems -/

/-- Claim C3 (status: code_bug).  `isLinearSegment` tests only
`offset > 1.0` for each endpoint tangent, never `offset < -1.0` (the source
carries `// TODO: handle negative projection case`).  At
`p0 = (0,0), p1 = (1,0)` with endpoint tangent `d0 = (0,-10)` the implied
perpendicular deviation exceeds the unit offset in magnitude
(`crossProduct(diff,d0)^2 = 100 > 9 = 9 * |diff|^2`, i.e. `|offset1| = 10/3`),
yet the function returns `true`; the mirrored tangent `(0,10)` on the other
side of the chord is correctly rejected.  So the claim's "regardless of the
sign (side of the chord)" fails: the code accepts arbitrarily large
deviations on one side. -/
theorem isLinearSegment_misses_negative_deviation :
    isLinearSegment ⟨0, 0⟩ ⟨0, -10⟩ ⟨1, 0⟩ ⟨0, 0⟩ = true ∧
    9 * normSq ((⟨1, 0⟩ : Point) - ⟨0, 0⟩) <
      crossProduct ((⟨1, 0⟩ : Point) - ⟨0, 0⟩) ⟨0, -10⟩ *
        crossProduct ((⟨1, 0⟩ : Point) - ⟨0, 0⟩) ⟨0, -10⟩ ∧
    isLinearSegment ⟨0, 0⟩ ⟨0, 10⟩ ⟨1, 0⟩ ⟨0, 0⟩ = false := by
  refine ⟨?_, ?_, ?_⟩ <;>
    norm_num [isLinearSegment, exceedsUnitOffset, crossProduct, normSq]

/-- Claim C4 (status: code_bug).  On a degenerate curve with `p0 = p3` the
source computes `minStepSize = 2.0 / kisDistance(p0, p3)` with no guard at
all — a division by zero (IEEE: `+inf`).  The emitted parameters are
nevertheless exactly `[0, 1]`: with `minStepSize = +inf` the very first
interval test `t - lastT < minStepSize` accepts (this is `belowMinStep`'s
zero-chord branch), so only the endpoints are kept.  This theorem proves the
behavioural half of the claim for every degenerate input and any sufficient
fuel. -/
theorem linearizeCurve_degenerate_chord (p0 p1 p2 : Point) (fuel : ℕ) :
    linearizeCurve (fuel + 1) p0 p1 p2 p0 = [0, 1] := by
  rw [linearizeCurve, linearizeCurveAux]
  have h : normSq (p0 - p0) = 0 := by simp [normSq]
  rw [h]
  have hb : belowMinStep (1 - 0) 0 := Or.inl rfl
  rw [if_pos (Or.inl hb)]
  cases fuel <;> rfl

/-- Claim C5 (status: code_bug).  The source initializes `result` with two
consecutive writes to `result.rx()` (lines 1108–1109) — the second was
clearly meant to be `result.ry()` — so `result.y` keeps `QPointF()`'s
default 0.  If the very first minimizer iteration reports an error, the loop
breaks before `result` is ever updated and `calculateLocalPos` returns
`(0.5, 0)` instead of the last iterate `(0.5, 0.5)`: the claim "returns the
last iterate of the minimization regardless of whether the minimizer
converged or reported an error" fails. -/
theorem calculateLocalPos_error_returns_stale_result :
    calculateLocalPos default ⟨500, 500⟩ (fun _ _ => none) (fun _ => false) = ⟨1 / 2, 0⟩ ∧
    ((⟨1 / 2, 0⟩ : Point) ≠ ⟨1 / 2, 1 / 2⟩) := by
  refine ⟨rfl, ?_⟩
  intro h
  have := congrArg Point.y h
  norm_num at this

set_option maxHeartbeats 2000000 in
/-- Claim C6 (status: confirmed).  The solver's closed-form forward map
`meshForwardMapping(u, v, params)`, with the params taken from the patch
exactly as `calculateLocalPos` assigns them, is the same bicubic polynomial
as the Coons-patch evaluation `Sc + Sd - Sb` computed by the samplers at
`xProportion = u`, `yProportion = v`. -/
theorem meshForwardMapping_eq_coons (patch : BezierPatch) (dst : Point) (u v : ℚ) :
    meshForwardMapping u v (paramsOfPatch patch dst) = patch.coonsTransf u v := by
  apply Point.ext <;>
    simp [meshForwardMapping, paramsOfPatch, BezierPatch.coonsTransf,
      bezierCurve, lerp, pow2, pow3] <;> ring

/-- Claim C8 (status: confirmed).  The Coons correction `Sc + Sd - Sb`
computed per sample by `sampleIrregularGrid` (its per-point destination map
is exactly `coonsTransf`, as the last conjunct records) matches the four
boundary Bezier curves of the patch exactly at `xProportion ∈ {0,1}` and at
`yProportion ∈ {0,1}` — no additive error on the boundaries, for every patch
and every sampled proportion. -/
theorem coons_boundary_matching (patch : BezierPatch) (t : ℚ) (fuel : ℕ) :
    patch.coonsTransf 0 t = bezierCurve patch.TL patch.TL_VC patch.BL_VC patch.BL t ∧
    patch.coonsTransf 1 t = bezierCurve patch.TR patch.TR_VC patch.BR_VC patch.BR t ∧
    patch.coonsTransf t 0 = bezierCurve patch.TL patch.TL_HC patch.TR_HC patch.TR t ∧
    patch.coonsTransf t 1 = bezierCurve patch.BL patch.BL_HC patch.BR_HC patch.BR t ∧
    (patch.sampleIrregularGrid fuel).2.2 =
      ((mergeSteps (linearizeCurve fuel patch.TL patch.TL_VC patch.BL_VC patch.BL)
          (linearizeCurve fuel patch.TR patch.TR_VC patch.BR_VC patch.BR)).map
        (fun yP =>
          (mergeSteps (linearizeCurve fuel patch.TL patch.TL_HC patch.TR_HC patch.TR)
              (linearizeCurve fuel patch.BL patch.BL_HC patch.BR_HC patch.BR)).map
            (fun xP => patch.coonsTransf xP yP))).flatten := by
  refine ⟨?_, ?_, ?_, ?_, rfl⟩ <;>
    apply Point.ext <;>
      simp [BezierPatch.coonsTransf, bezierCurve, lerp, pow2] <;> ring

/-- Claim C2 (status: corrected), the amended statement.  A freshly
constructed mesh has every node's four control points equal to the node
position.  Patches made from such a mesh are `cornerPatch`es (all edge
controls coincide with the corners, corners a rectangle, in particular a
parallelogram).  On them `sampleIrregularGrid` does reduce to bilinear corner
interpolation: it samples only the proportions `{0, 1}` and its destination
points are exactly the four corners.  The per-sample destination map of both
samplers, `coonsTransf`, equals the bilinear interpolation of the corners at
the smoothstep-reparametrized proportions `t^2*(3-2t)` — not at the raw
proportions, so `sampleRegularGrid`'s interior samples are not bilinear (see
the counterexample). -/
theorem freshMesh_flatness_and_sampler_reduction (rect : Rect) (w h : ℕ) (nd : Node)
    (A B C : Point) (rc : Rect) (x y : ℚ) (fuel : ℕ)
    (hnd : nd ∈ (BezierMesh.mk' rect w h).nodes) :
    (nd.leftControl = nd.node ∧ nd.topControl = nd.node ∧
     nd.rightControl = nd.node ∧ nd.bottomControl = nd.node) ∧
    (cornerPatch A B C rc).coonsTransf x y =
      bilinearInterp A B C (B + C - A) (smoothstep x) (smoothstep y) ∧
    (cornerPatch A B C rc).sampleIrregularGrid (fuel + 1) =
      ((2, 2),
       [⟨rc.x, rc.y⟩, ⟨rc.x + rc.w, rc.y⟩, ⟨rc.x, rc.y + rc.h⟩, ⟨rc.x + rc.w, rc.y + rc.h⟩],
       [A, B, C, B + C - A]) := by
  refine ⟨?_, coons_cornerPatch A B C rc x y, ?_⟩
  · simp only [BezierMesh.mk', List.mem_flatten, List.mem_map, List.mem_range] at hnd
    obtain ⟨l, ⟨row, -, hl⟩, hmem⟩ := hnd
    subst hl
    obtain ⟨col, -, hcol⟩ := List.mem_map.mp hmem
    subst hcol
    exact ⟨rfl, rfl, rfl, rfl⟩
  · simp only [BezierPatch.sampleIrregularGrid, cornerPatch]
    rw [linearizeCurve_straight, linearizeCurve_straight, linearizeCurve_straight,
      linearizeCurve_straight, mergeSteps_zero_one]
    simp only [List.map_cons, List.map_nil, List.flatten]
    rw [coonsTransf_corner_00, coonsTransf_corner_10, coonsTransf_corner_01,
      coonsTransf_corner_11]
    norm_num [relativeToAbsolute, cornerPatch]

/-- Witness for the amended claim C2 theorem: the concrete fresh mesh over
the rectangle contains the degenerate node at the origin, and instantiating
the claim theorem there yields its flatness. -/
theorem freshMesh_flatness_witness :
    Node.ofPoint (⟨0, 0⟩ : Point) ∈ (BezierMesh.mk' ⟨0, 0, 100, 100⟩ 2 2).nodes ∧
    ((Node.ofPoint (⟨0, 0⟩ : Point)).leftControl = (Node.ofPoint (⟨0, 0⟩ : Point)).node ∧
     (Node.ofPoint (⟨0, 0⟩ : Point)).topControl = (Node.ofPoint (⟨0, 0⟩ : Point)).node ∧
     (Node.ofPoint (⟨0, 0⟩ : Point)).rightControl = (Node.ofPoint (⟨0, 0⟩ : Point)).node ∧
     (Node.ofPoint (⟨0, 0⟩ : Point)).bottomControl = (Node.ofPoint (⟨0, 0⟩ : Point)).node) :=
  have hmem : Node.ofPoint (⟨0, 0⟩ : Point) ∈ (BezierMesh.mk' ⟨0, 0, 100, 100⟩ 2 2).nodes := by
    norm_num [BezierMesh.mk', Node.ofPoint, List.range_succ, Point.ext_iff]
  ⟨hmem,
   (freshMesh_flatness_and_sampler_reduction ⟨0, 0, 100, 100⟩ 2 2
      (Node.ofPoint ⟨0, 0⟩) ⟨0, 0⟩ ⟨100, 0⟩ ⟨0, 100⟩ ⟨0, 0, 100, 100⟩ 0 0 0 hmem).1⟩

/-- Claim C2 counterexample.  For the patch of a freshly constructed
`2 × 2` mesh over `(0, 0, 100, 100)`, `sampleRegularGrid` with step
`(30, 30)` produces a `4 × 4` grid; its sample at grid position
`(x, y) = (1, 0)` — proportions `(1/3, 0)` — is `(700/27, 0)`, while the
bilinear interpolation of the four corner points at `(1/3, 0)` is
`(100/3, 0)`.  The claim's equation fails at this sampled proportion. -/
theorem sampleRegularGrid_interior_not_bilinear :
    (freshPatch100.sampleRegularGrid ⟨30, 30⟩).1 = (4, 4) ∧
    ((freshPatch100.sampleRegularGrid ⟨30, 30⟩).2.2).getD 1 default = ⟨700 / 27, 0⟩ ∧
    bilinearInterp freshPatch100.TL freshPatch100.TR freshPatch100.BL freshPatch100.BR
      ((1 : ℚ) / 3) 0 = ⟨100 / 3, 0⟩ ∧
    ((⟨700 / 27, 0⟩ : Point) ≠ (⟨100 / 3, 0⟩ : Point)) := by
  rw [freshPatch100_eq]
  have hbounds : (cornerPatch (⟨0, 0⟩ : Point) ⟨100, 0⟩ ⟨0, 100⟩
      ⟨0, 0, 100, 100⟩).dstBoundingRect = ⟨0, 0, 100, 100⟩ := by
    norm_num [BezierPatch.dstBoundingRect, BezierPatch.pointList, cornerPatch]
  have hc : ((⌈(100 : ℚ) / 30⌉ : ℤ)) = 4 := by
    rw [Int.ceil_eq_iff]
    norm_num
  refine ⟨?_, ?_, ?_, ?_⟩
  · simp only [BezierPatch.sampleRegularGrid, hbounds, hc]
  · simp only [BezierPatch.sampleRegularGrid, hbounds, hc]
    have hr : List.range (Int.toNat 4) = [0, 1, 2, 3] := rfl
    rw [hr]
    norm_num [List.flatMap_cons, List.flatMap_nil, List.flatten_cons, List.flatten_nil,
      coons_cornerPatch, bilinearInterp, lerp, smoothstep, Point.ext_iff]
  · norm_num [cornerPatch, bilinearInterp, lerp, smoothstep, Point.ext_iff]
  · norm_num [Point.ext_iff]

/-- Claim C1 counterexample.  Subdividing the fresh `2 × 2` mesh over
`(0, 0, 100, 100)` at `t = 1/2` twice is not idempotent: the second call
inserts a duplicate parametric value (the source only checks
`qFuzzyCompare(t, 0.0)` and `qFuzzyCompare(t, 1.0)`, never whether `t`
already occurs in the sequence), so the row sequence and the logical height
change again on the second call. -/
theorem subdivideRow_second_call_changes_state :
    (((BezierMesh.mk' ⟨0, 0, 100, 100⟩ 2 2).subdivideRow (1 / 2)).subdivideRow
        (1 / 2)).rows = [0, 1 / 2, 1 / 2, 1] ∧
    ((BezierMesh.mk' ⟨0, 0, 100, 100⟩ 2 2).subdivideRow (1 / 2)).rows = [0, 1 / 2, 1] ∧
    (((BezierMesh.mk' ⟨0, 0, 100, 100⟩ 2 2).subdivideRow (1 / 2)).subdivideRow
        (1 / 2)).height = 4 ∧
    ((BezierMesh.mk' ⟨0, 0, 100, 100⟩ 2 2).subdivideRow (1 / 2)).height = 3 :=
  repeatedSubdivide_facts

/-- Claim C1 (status: corrected), the amended statement.  `subdivideRow(t)` /
`subdivideColumn(t)` are no-ops exactly on the source's guards: when `t` is
fuzzy-equal to 0.0 or 1.0, or outside `(0, 1)` (the recovered assertion).
For every other `t` — including a `t` equal to an existing interior
row/column position — every call, a repeated one included, inserts a new
parametric value and increments the logical dimension: the operation is not
idempotent (see the counterexample). -/
theorem subdivide_noop_only_at_guards (m : BezierMesh) (t : ℚ) :
    (qFuzzyCompare t 0 ∨ qFuzzyCompare t 1 ∨ ¬(0 < t ∧ t < 1) →
      m.subdivideRow t = m ∧ m.subdivideColumn t = m) ∧
    (¬ qFuzzyCompare t 0 → ¬ qFuzzyCompare t 1 → 0 < t → t < 1 →
      (m.subdivideRow t).rows.length = m.rows.length + 1 ∧
      (m.subdivideRow t).height = m.height + 1 ∧
      (m.subdivideColumn t).columns.length = m.columns.length + 1 ∧
      (m.subdivideColumn t).width = m.width + 1) := by
  constructor
  · intro hguard
    by_cases hf : qFuzzyCompare t 0 ∨ qFuzzyCompare t 1
    · rw [BezierMesh.subdivideRow, if_pos hf, BezierMesh.subdivideColumn, if_pos hf]
      exact ⟨rfl, rfl⟩
    · have hrange : ¬(0 < t ∧ t < 1) := by tauto
      rw [BezierMesh.subdivideRow, if_neg hf, if_pos hrange,
          BezierMesh.subdivideColumn, if_neg hf, if_pos hrange]
      exact ⟨rfl, rfl⟩
  · intro h0 h1 hlo hhi
    obtain ⟨hr, hh, -, -⟩ := subdivideRow_else m t h0 h1 hlo hhi
    obtain ⟨hc, hw, -, -⟩ := subdivideColumn_else m t h0 h1 hlo hhi
    refine ⟨?_, hh, ?_, hw⟩
    · rw [hr, List.length_insertIdx _ _ (upperBoundIdx_le_length m.rows t)]
    · rw [hc, List.length_insertIdx _ _ (upperBoundIdx_le_length m.columns t)]

/-- Witness for the amended claim C1 theorem at the fresh `2 × 2` mesh and
`t = 1/2`. -/
theorem subdivide_noop_only_at_guards_witness :
    ¬ qFuzzyCompare (1 / 2 : ℚ) 0 ∧ ¬ qFuzzyCompare (1 / 2 : ℚ) 1 ∧
    ((BezierMesh.mk' ⟨0, 0, 100, 100⟩ 2 2).subdivideRow (1 / 2)).rows.length =
      (BezierMesh.mk' ⟨0, 0, 100, 100⟩ 2 2).rows.length + 1 ∧
    ((BezierMesh.mk' ⟨0, 0, 100, 100⟩ 2 2).subdivideColumn (1 / 2)).width =
      (BezierMesh.mk' ⟨0, 0, 100, 100⟩ 2 2).width + 1 :=
  ⟨not_qFuzzyCompare_half_zero, not_qFuzzyCompare_half_one,
   ((subdivide_noop_only_at_guards (BezierMesh.mk' ⟨0, 0, 100, 100⟩ 2 2) (1 / 2)).2
      not_qFuzzyCompare_half_zero not_qFuzzyCompare_half_one
      (by norm_num) (by norm_num)).1,
   ((subdivide_noop_only_at_guards (BezierMesh.mk' ⟨0, 0, 100, 100⟩ 2 2) (1 / 2)).2
      not_qFuzzyCompare_half_zero not_qFuzzyCompare_half_one
      (by norm_num) (by norm_num)).2.2.2⟩

/-- Claim C9 counterexample.  After subdividing twice at the same interior
parameter the row sequence `[0, 1/2, 1/2, 1]` is reachable, and it is neither
strictly sorted nor duplicate-free — the claimed invariant fails. -/
theorem rows_not_strictly_sorted_after_repeat :
    ¬ (((BezierMesh.mk' ⟨0, 0, 100, 100⟩ 2 2).subdivideRow (1 / 2)).subdivideRow
        (1 / 2)).rows.Pairwise (fun a b => a < b) := by
  intro h
  rw [repeatedSubdivide_facts.1] at h
  simp [List.pairwise_cons] at h

/-- Claim C9 (status: corrected), the amended statement.  Every mesh
reachable from the constructor (logical size at least `2 × 2`) by any
sequence of `subdivideRow` / `subdivideColumn` calls satisfies:
`rows.head = 0`, `rows.last = 1` (same for columns), node storage size
`width * height`, sequence lengths equal to the logical dimensions, and the
sequences sorted in non-decreasing order.  The original claim's strict
sortedness / duplicate freedom is dropped: it fails on reachable states (see
the counterexample). -/
theorem mesh_invariants_preserved (ops : List MeshOp) (rect : Rect) (w h : ℕ)
    (hw : 2 ≤ w) (hh : 2 ≤ h) :
    MeshInvariant (applyOps ops (BezierMesh.mk' rect w h)) := by
  have main : ∀ (l : List MeshOp) (m : BezierMesh), MeshInvariant m →
      MeshInvariant (applyOps l m) := by
    intro l
    induction l with
    | nil => intro m hm; exact hm
    | cons op rest ih =>
      intro m hm
      rw [applyOps, List.foldl_cons]
      cases op with
      | row t => exact ih _ (meshInvariant_subdivideRow m t hm)
      | col t => exact ih _ (meshInvariant_subdivideColumn m t hm)
  exact main ops _ (meshInvariant_mk rect w h hw hh)

/-- Witness for the amended claim C9 theorem: one row subdivision on the
concrete fresh `2 × 2` mesh. -/
theorem mesh_invariants_preserved_witness :
    (2 ≤ 2) ∧
    MeshInvariant (applyOps [MeshOp.row (1 / 2)] (BezierMesh.mk' ⟨0, 0, 100, 100⟩ 2 2)) :=
  ⟨by norm_num,
   mesh_invariants_preserved [MeshOp.row (1 / 2)] ⟨0, 0, 100, 100⟩ 2 2
     (by norm_num) (by norm_num)⟩

/-- Claim C10 (status: confirmed).  For `t` strictly between the adjacent row
positions `i` and `i + 1`, `subdivideRow(t)` changes, among the pre-existing
nodes, only the `bottomControl` of the nodes in row `i` and the `topControl`
of the nodes in row `i + 1` (which moves to grid row `i + 2`): every
pre-existing node keeps its position and its other control points, rows
above `i` are bitwise unchanged, and rows below `i + 1` reappear unchanged
one grid row further down.  Symmetrically, `subdivideColumn(t)` touches only
the `rightControl` of column `i` and the `leftControl` of column `i + 1`. -/
theorem subdivide_frame_effect (m : BezierMesh) (t : ℚ) (i : ℕ) :
    (RowBracket m t i → ∀ col, col < m.width →
      ((∀ r, r < i → (m.subdivideRow t).nodeAt col r = m.nodeAt col r) ∧
       ((m.subdivideRow t).nodeAt col i).node = (m.nodeAt col i).node ∧
       ((m.subdivideRow t).nodeAt col i).leftControl = (m.nodeAt col i).leftControl ∧
       ((m.subdivideRow t).nodeAt col i).topControl = (m.nodeAt col i).topControl ∧
       ((m.subdivideRow t).nodeAt col i).rightControl = (m.nodeAt col i).rightControl ∧
       ((m.subdivideRow t).nodeAt col (i + 2)).node = (m.nodeAt col (i + 1)).node ∧
       ((m.subdivideRow t).nodeAt col (i + 2)).leftControl =
         (m.nodeAt col (i + 1)).leftControl ∧
       ((m.subdivideRow t).nodeAt col (i + 2)).rightControl =
         (m.nodeAt col (i + 1)).rightControl ∧
       ((m.subdivideRow t).nodeAt col (i + 2)).bottomControl =
         (m.nodeAt col (i + 1)).bottomControl ∧
       (∀ r, i + 2 ≤ r → r < m.height →
         (m.subdivideRow t).nodeAt col (r + 1) = m.nodeAt col r))) ∧
    (ColBracket m t i → ∀ row, row < m.height →
      ((∀ c, c < i → (m.subdivideColumn t).nodeAt c row = m.nodeAt c row) ∧
       ((m.subdivideColumn t).nodeAt i row).node = (m.nodeAt i row).node ∧
       ((m.subdivideColumn t).nodeAt i row).leftControl = (m.nodeAt i row).leftControl ∧
       ((m.subdivideColumn t).nodeAt i row).topControl = (m.nodeAt i row).topControl ∧
       ((m.subdivideColumn t).nodeAt i row).bottomControl = (m.nodeAt i row).bottomControl ∧
       ((m.subdivideColumn t).nodeAt (i + 2) row).node = (m.nodeAt (i + 1) row).node ∧
       ((m.subdivideColumn t).nodeAt (i + 2) row).topControl =
         (m.nodeAt (i + 1) row).topControl ∧
       ((m.subdivideColumn t).nodeAt (i + 2) row).rightControl =
         (m.nodeAt (i + 1) row).rightControl ∧
       ((m.subdivideColumn t).nodeAt (i + 2) row).bottomControl =
         (m.nodeAt (i + 1) row).bottomControl ∧
       (∀ c, i + 2 ≤ c → c < m.width →
         (m.subdivideColumn t).nodeAt (c + 1) row = m.nodeAt c row))) := by
  constructor
  · rintro ⟨hs, hi, hbl, hbh, h0, h1, hf1, hrl, hN⟩ col hcol
    obtain ⟨ha, hb, -, hd, he⟩ :=
      subdivideRow_nodeAt m t i col hs hi hbl hbh h0 h1 hf1 hrl hN hcol
    exact ⟨ha, by rw [hb]; rfl, by rw [hb]; rfl, by rw [hb]; rfl, by rw [hb]; rfl,
           by rw [hd]; rfl, by rw [hd]; rfl, by rw [hd]; rfl, by rw [hd]; rfl, he⟩
  · rintro ⟨hs, hi, hbl, hbh, h0, h1, hf1, hcl, hN⟩ row hrow
    obtain ⟨ha, hb, -, hd, he⟩ :=
      subdivideColumn_nodeAt m t i row hs hi hbl hbh h0 h1 hf1 hcl hN hrow
    exact ⟨ha, by rw [hb]; rfl, by rw [hb]; rfl, by rw [hb]; rfl, by rw [hb]; rfl,
           by rw [hd]; rfl, by rw [hd]; rfl, by rw [hd]; rfl, by rw [hd]; rfl, he⟩

/-- Witness for the claim C10 theorem: the concrete fresh mesh subdivided at
`t = 1/2`, checking the preserved fields of the bracketing rows. -/
theorem subdivide_frame_effect_witness :
    RowBracket (BezierMesh.mk' ⟨0, 0, 100, 100⟩ 2 2) (1 / 2) 0 ∧
    (((BezierMesh.mk' ⟨0, 0, 100, 100⟩ 2 2).subdivideRow (1 / 2)).nodeAt 0 0).node =
      ((BezierMesh.mk' ⟨0, 0, 100, 100⟩ 2 2).nodeAt 0 0).node ∧
    (((BezierMesh.mk' ⟨0, 0, 100, 100⟩ 2 2).subdivideRow (1 / 2)).nodeAt 0 2).bottomControl =
      ((BezierMesh.mk' ⟨0, 0, 100, 100⟩ 2 2).nodeAt 0 1).bottomControl :=
  ⟨rowBracket_mk100,
   (((subdivide_frame_effect (BezierMesh.mk' ⟨0, 0, 100, 100⟩ 2 2) (1 / 2) 0).1
      rowBracket_mk100 0 (by norm_num [BezierMesh.mk'])).2.1),
   (((subdivide_frame_effect (BezierMesh.mk' ⟨0, 0, 100, 100⟩ 2 2) (1 / 2) 0).1
      rowBracket_mk100 0 (by norm_num [BezierMesh.mk'])).2.2.2.2.2.2.2.2.1)⟩

/-- Claim C7 (status: confirmed).  `deCasteljau` exactly bisects the cubic:
the split point equals `bezierCurve(q0,q1,q2,q3,t)`, and the two output
sub-curves reproduce the original curve pointwise (`B_left(s) = B(t*s)` and
`B_right(s) = B(t + (1-t)*s)`).  Consequently, for `t` strictly between two
adjacent row (resp. column) positions, the vertical (resp. horizontal)
boundary curve of the original patch — through `node`, `bottomControl`,
`topControl`, `node` of the bracketing nodes — evaluated at the relative
parameter equals the new shared node's position after `subdivideRow(t)`
(resp. `subdivideColumn(t)`). -/
theorem deCasteljau_exact_subdivision (q0 q1 q2 q3 : Point) (tq s t : ℚ)
    (m : BezierMesh) (i j : ℕ) :
    (deCasteljau q0 q1 q2 q3 tq).p2 = bezierCurve q0 q1 q2 q3 tq ∧
    bezierCurve q0 (deCasteljau q0 q1 q2 q3 tq).p0 (deCasteljau q0 q1 q2 q3 tq).p1
      (deCasteljau q0 q1 q2 q3 tq).p2 s = bezierCurve q0 q1 q2 q3 (tq * s) ∧
    bezierCurve (deCasteljau q0 q1 q2 q3 tq).p2 (deCasteljau q0 q1 q2 q3 tq).p3
      (deCasteljau q0 q1 q2 q3 tq).p4 q3 s = bezierCurve q0 q1 q2 q3 (tq + (1 - tq) * s) ∧
    (RowBracket m t i → j < m.width →
      ((m.subdivideRow t).nodeAt j (i + 1)).node =
        bezierCurve (m.nodeAt j i).node (m.nodeAt j i).bottomControl
          (m.nodeAt j (i + 1)).topControl (m.nodeAt j (i + 1)).node
          ((t - m.rows.getD i 0) / (m.rows.getD (i + 1) 0 - m.rows.getD i 0))) ∧
    (ColBracket m t i → j < m.height →
      ((m.subdivideColumn t).nodeAt (i + 1) j).node =
        bezierCurve (m.nodeAt i j).node (m.nodeAt i j).rightControl
          (m.nodeAt (i + 1) j).leftControl (m.nodeAt (i + 1) j).node
          ((t - m.columns.getD i 0) / (m.columns.getD (i + 1) 0 - m.columns.getD i 0))) := by
  refine ⟨deCasteljau_splitpoint q0 q1 q2 q3 tq,
          deCasteljau_left_segment q0 q1 q2 q3 tq s,
          deCasteljau_right_segment q0 q1 q2 q3 tq s, ?_, ?_⟩
  · rintro ⟨hs, hi, hbl, hbh, h0, h1, hf1, hrl, hN⟩ hj
    obtain ⟨-, -, hc, -, -⟩ :=
      subdivideRow_nodeAt m t i j hs hi hbl hbh h0 h1 hf1 hrl hN hj
    rw [hc]
    exact deCasteljau_splitpoint _ _ _ _ _
  · rintro ⟨hs, hi, hbl, hbh, h0, h1, hf1, hcl, hN⟩ hj
    obtain ⟨-, -, hc, -, -⟩ :=
      subdivideColumn_nodeAt m t i j hs hi hbl hbh h0 h1 hf1 hcl hN hj
    rw [hc]
    exact deCasteljau_splitpoint _ _ _ _ _

/-- Witness for the claim C7 theorem: the fresh mesh subdivided at `t = 1/2`
between rows 0 and 1. -/
theorem deCasteljau_exact_subdivision_witness :
    RowBracket (BezierMesh.mk' ⟨0, 0, 100, 100⟩ 2 2) (1 / 2) 0 ∧
    (((BezierMesh.mk' ⟨0, 0, 100, 100⟩ 2 2).subdivideRow (1 / 2)).nodeAt 0 1).node =
      bezierCurve ((BezierMesh.mk' ⟨0, 0, 100, 100⟩ 2 2).nodeAt 0 0).node
        ((BezierMesh.mk' ⟨0, 0, 100, 100⟩ 2 2).nodeAt 0 0).bottomControl
        ((BezierMesh.mk' ⟨0, 0, 100, 100⟩ 2 2).nodeAt 0 1).topControl
        ((BezierMesh.mk' ⟨0, 0, 100, 100⟩ 2 2).nodeAt 0 1).node
        ((1 / 2 - (BezierMesh.mk' ⟨0, 0, 100, 100⟩ 2 2).rows.getD 0 0) /
         ((BezierMesh.mk' ⟨0, 0, 100, 100⟩ 2 2).rows.getD 1 0 -
          (BezierMesh.mk' ⟨0, 0, 100, 100⟩ 2 2).rows.getD 0 0)) :=
  ⟨rowBracket_mk100,
   (deCasteljau_exact_subdivision ⟨0, 0⟩ ⟨0, 0⟩ ⟨0, 0⟩ ⟨0, 0⟩ 0 0 (1 / 2)
      (BezierMesh.mk' ⟨0, 0, 100, 100⟩ 2 2) 0 0).2.2.2.1 rowBracket_mk100
      (by norm_num [BezierMesh.mk'])⟩

end Krita


